import Mathlib

/-!
Shallow embedding of the connectivity-monitoring core of the `ccc` repository
(ISP classifier, traceroute probe engine, monitoring scheduler), together with
theorems settling the specification claims about it.

Conventions of the embedding:
* Go strings are Lean `String`s; status values are the literal strings the code
  uses ("up", "down", "unknown", "unreachable").
* `time.Time` instants are `Nat`; the Go zero time is `Option.none` where the
  code distinguishes it (endpoint `LastOK`).
* Network I/O is parameterised by oracles: ICMP ping outcomes are a function
  `String → Bool` (the `Pinger.Ping` success flag for a target address),
  traceroute probe replies are a function from TTL to an optional
  (peer address, ICMP message type) pair, and DNS TXT resolution is a function
  `String → Option (List String)` (`none` models a lookup error).
* Go maps are association lists with unique keys; map iteration effects used by
  the code are order-independent and are modelled by list traversal.
-/

namespace CCC

/-! ### Probe engine: traceroute (internal/monitor/traceroute.go) -/

/-- The ICMP reply types distinguished by `probeHop`'s switch statement; `other`
covers every other parsed type and replies whose parsing fails (both leave
`Reached` false while the peer address is already recorded). -/
inductive ICMPType where
  | echoReply
  | timeExceeded
  | destUnreachable
  | other
deriving DecidableEq

/-- One hop of a traceroute (`Hop` in traceroute.go). An empty `address` means
no reply was received for that TTL. RTT is not modelled. -/
structure Hop where
  ttl : Nat
  address : String
  reached : Bool
deriving DecidableEq

/-- A traceroute probe oracle: for each TTL, the reply obtained (peer address
and ICMP type), or `none` when no reply arrives before the timeout (or any
send/receive error occurs, which the code treats the same way). -/
def ProbeOracle := Nat → Option (String × ICMPType)

/-- Embeds `probeHop` from traceroute.go: sends one echo request with the given TTL
and classifies the reply. An echo reply or a destination-unreachable reply
marks the hop as `reached`; a time-exceeded reply (or any other/unparseable
reply) does not; no reply leaves the address empty. -/
def probeHop (oracle : ProbeOracle) (ttl : Nat) : Hop :=
  match oracle ttl with
  | none => ⟨ttl, "", false⟩
  | some (addr, k) => ⟨ttl, addr, k == ICMPType.echoReply || k == ICMPType.destUnreachable⟩

/-- Embeds `TracerouteResult` from traceroute.go (the `Error` field is handled at the
call sites by the `Option` in `FindLastRespondingHop`'s argument). -/
structure TracerouteResult where
  hops : List Hop
  lastHop : Option Hop
  reachedDst : Bool
deriving DecidableEq

/-- The TTL loop of `Tracer.Traceroute`, starting at TTL `ttl` with `fuel`
iterations remaining. Each iteration probes one hop, updates the
last-responding hop whenever the reply carried an address, and terminates with
`reachedDst = true` as soon as a hop is marked reached. -/
def tracerouteFrom (oracle : ProbeOracle) (ttl : Nat) : Nat → TracerouteResult
  | 0 => ⟨[], none, false⟩
  | fuel + 1 =>
    let hop := probeHop oracle ttl
    if hop.reached then
      ⟨[hop], if hop.address ≠ "" then some hop else none, true⟩
    else
      let rest := tracerouteFrom oracle (ttl + 1) fuel
      ⟨hop :: rest.hops,
        match rest.lastHop with
        | some h => some h
        | none => if hop.address ≠ "" then some hop else none,
        rest.reachedDst⟩

/-- Embeds `Tracer.Traceroute`: iterate TTL values 1..maxHops. The scheduler's tracer
is built by `NewTracer(2*time.Second, 30)`, so `maxHops = 30` below. -/
def Traceroute (maxHops : Nat) (oracle : ProbeOracle) : TracerouteResult :=
  tracerouteFrom oracle 1 maxHops

/-- Embeds `maxHops` of the tracer constructed in `NewScheduler`. -/
def tracerMaxHops : Nat := 30

/-- Embeds `Tracer.FindLastRespondingHop`: thin wrapper returning the last responding
hop's address and TTL and whether the destination was reached. The `Option` on
the oracle models `Traceroute` returning an error (invalid destination address
or failure to open the ICMP socket), in which case `("", 0, false)` is
returned. -/
def FindLastRespondingHop (t : Option ProbeOracle) : String × Nat × Bool :=
  match t with
  | none => ("", 0, false)
  | some oracle =>
    let result := Traceroute tracerMaxHops oracle
    match result.lastHop with
    | none => ("", 0, false)
    | some h => (h.address, h.ttl, result.reachedDst)

/-! ### Data model (internal/models) -/

/-- Embeds `models.Endpoint`, restricted to the fields the monitoring core reads or
writes. `lastOK = none` models the Go zero time (never probed successfully). -/
structure Endpoint where
  id : String
  ipv4 : String
  isp : String
  status : String
  lastOK : Option Nat
  monitoredHop : String
  hopNumber : Nat
  useHop : Bool
deriving DecidableEq

/-- The outcome of monitoring one endpoint for one cycle: the new status, the
new last-successful-probe time (`none` = Go zero time, which `UpdateStatus`
keeps unchanged via COALESCE), and the `UpdateMonitoredHop(id, hop, n)` call
issued during the cycle, if any. -/
structure MonitorResult where
  status : String
  lastOK : Option Nat
  hopUpdate : Option (String × Nat)
deriving DecidableEq

/-- A per-destination traceroute environment: for each destination address,
either `none` (traceroute setup fails) or the probe oracle describing the
path's replies. -/
def TraceEnv := String → Option ProbeOracle

/-- Embeds `Scheduler.monitorEndpoint` (the traceroute-fallback version of
scheduler.go): pick the probe target (stored monitored hop when `useHop` is
set and a hop is stored, else the endpoint's own address) and ping it; on
failure, if not already in hop-fallback mode, traceroute the endpoint's own
address: reaching the destination yields "up"; otherwise a found hop is
persisted (`UpdateMonitoredHop`) and re-pinged, success yielding "up". Every
remaining case yields "down". -/
def monitorEndpoint (ping : String → Bool) (trace : TraceEnv) (now : Nat)
    (ep : Endpoint) : MonitorResult :=
  let targetIP := if ep.useHop && ep.monitoredHop != "" then ep.monitoredHop else ep.ipv4
  if ping targetIP then ⟨"up", some now, none⟩
  else if !ep.useHop then
    let flr := FindLastRespondingHop (trace ep.ipv4)
    if flr.2.2 then ⟨"up", some now, none⟩
    else if flr.1 != "" && flr.2.1 > 0 then
      if ping flr.1 then ⟨"up", some now, some (flr.1, flr.2.1)⟩
      else ⟨"down", none, some (flr.1, flr.2.1)⟩
    else ⟨"down", none, none⟩
  else ⟨"down", none, none⟩

/-- The per-cycle decision procedure exactly as claim C1 words it, including
its final clause: in the remaining cases the status becomes "down" if the
endpoint has hop-fallback configured (also when just switched) or has
previously been reachable, and "unreachable" if it has never answered at
all. -/
def monitorEndpointClaimC1 (ping : String → Bool) (trace : TraceEnv) (now : Nat)
    (ep : Endpoint) : MonitorResult :=
  let target := if ep.useHop then ep.monitoredHop else ep.ipv4
  if ping target then ⟨"up", some now, none⟩
  else if ep.useHop then ⟨"down", none, none⟩
  else
    let flr := FindLastRespondingHop (trace ep.ipv4)
    if flr.2.2 then ⟨"up", some now, none⟩
    else if flr.1 != "" && flr.2.1 > 0 then
      if ping flr.1 then ⟨"up", some now, some (flr.1, flr.2.1)⟩
      else ⟨"down", none, some (flr.1, flr.2.1)⟩
    else if ep.lastOK.isSome then ⟨"down", none, none⟩
    else ⟨"unreachable", none, none⟩

/-- Claim C1's decision procedure amended no more than the counterexample
forces: the final clause always yields "down" (the code never produces
"unreachable" on this path). -/
def monitorEndpointAmendedC1 (ping : String → Bool) (trace : TraceEnv) (now : Nat)
    (ep : Endpoint) : MonitorResult :=
  let target := if ep.useHop then ep.monitoredHop else ep.ipv4
  if ping target then ⟨"up", some now, none⟩
  else if ep.useHop then ⟨"down", none, none⟩
  else
    let flr := FindLastRespondingHop (trace ep.ipv4)
    if flr.2.2 then ⟨"up", some now, none⟩
    else if flr.1 != "" && flr.2.1 > 0 then
      if ping flr.1 then ⟨"up", some now, some (flr.1, flr.2.1)⟩
      else ⟨"down", none, some (flr.1, flr.2.1)⟩
    else ⟨"down", none, none⟩

/-! ### Events and the ping cycle (scheduler.go) -/

/-- Embeds `models.Event`, restricted to the fields `RecordEvent` sets. -/
structure Event where
  etype : String
  isp : String
  endpointId : String
  message : String
deriving DecidableEq

/-- The status-change event block of `runPingCycle`: a "down" event when the
new status is "down", an "up" event when recovering from exactly "down" to
"up", and nothing otherwise; nothing at all when the status is unchanged or
the old status is "unknown". -/
def statusChangeEvents (ep : Endpoint) (oldStatus newStatus : String) : List Event :=
  if oldStatus != newStatus && oldStatus != "unknown" then
    if newStatus == "down" then
      [⟨"down", ep.isp, ep.id, ep.isp ++ " endpoint went down"⟩]
    else if newStatus == "up" && oldStatus == "down" then
      [⟨"up", ep.isp, ep.id, ep.isp ++ " endpoint recovered"⟩]
    else []
  else []

/-- Embeds `storage.GetEndpointsByMonitoredHop`: all endpoints (of any ISP) whose
`monitored_hop` column equals the given address. An unset hop is stored as SQL
NULL, which the equality never matches, so the empty address matches no
rows. -/
def GetEndpointsByMonitoredHop (endpoints : List Endpoint) (hopIP : String) : List Endpoint :=
  if hopIP == "" then [] else endpoints.filter (fun e => e.monitoredHop == hopIP)

/-- The `sharedHops` tally of `analyzeISPOutages` for one hop address: every
hop-monitoring endpoint of the ISP group is counted once by the unconditional
branch, and every such endpoint whose status is "down" is counted once more by
the down branch. -/
def sharedHopCount (eps : List Endpoint) (hop : String) : Nat :=
  (eps.filter (fun e => e.status == "down" && e.useHop && e.monitoredHop == hop)).length
    + (eps.filter (fun e => e.useHop && e.monitoredHop == hop)).length

/-- The `>50% down` heuristic of `analyzeISPOutages`. The source compares
`float64(downCount)/float64(len(eps)) > 0.5`; for any population that fits in
memory the IEEE-754 division is exact enough that the comparison coincides
with the exact test `2*downCount > len(eps)`, which is how it is embedded. -/
def downFractionExceeded (eps : List Endpoint) : Bool :=
  2 * (eps.filter (fun e => e.status == "down")).length > eps.length

/-- The shared-hop loop of `analyzeISPOutages` for one ISP group `eps`:
iterate the keys of `sharedHops` (each key is the monitored hop of some
hop-monitoring endpoint of the group); for a key whose tally is ≥ 2, re-fetch
all endpoints pointed at that hop and flag the ISP when there are ≥ 2 of them
and none is "up". -/
def hopRuleFires (endpoints eps : List Endpoint) : Bool :=
  eps.any (fun e =>
    e.useHop && e.monitoredHop != "" &&
    decide (2 ≤ sharedHopCount eps e.monitoredHop) &&
    (let hopEndpoints := GetEndpointsByMonitoredHop endpoints e.monitoredHop
     hopEndpoints.all (fun he => he.status != "up") && decide (2 ≤ hopEndpoints.length)))

/-- Embeds `Scheduler.analyzeISPOutages`: `none`/error from `ListAll` yields the nil
map (modelled as `[]`); otherwise endpoints are grouped by ISP and each group
with at least two endpoints is flagged by the down-fraction heuristic or the
shared-hop rule. Only flagged ISPs are entered in the map, always with value
`true`. -/
def analyzeISPOutages (db : Except Unit (List Endpoint)) : List (String × Bool) :=
  match db with
  | .error _ => []
  | .ok endpoints =>
    ((endpoints.map (fun e => e.isp)).dedup).filterMap (fun isp =>
      let eps := endpoints.filter (fun e => e.isp == isp)
      if eps.length < 2 then none
      else if downFractionExceeded eps then some (isp, true)
      else if hopRuleFires endpoints eps then some (isp, true)
      else none)

/-- Reading the outage map (`s.outages[isp]`): a missing key reads as
`false`, as a Go map lookup does. -/
def lookupOutage (outages : List (String × Bool)) (isp : String) : Bool :=
  match outages.lookup isp with
  | some b => b
  | none => false

/-- Embeds `Scheduler.IsISPOutage`. -/
def IsISPOutage (outages : List (String × Bool)) (isp : String) : Bool :=
  lookupOutage outages isp

/-- Embeds `Scheduler.HasAnyOutage`: true iff some entry of the map is `true`. -/
def HasAnyOutage (outages : List (String × Bool)) : Bool :=
  outages.any (fun p => p.2)

/-- The outage/recovery event block of `runPingCycle`: iterate the entries of
the *new* outage map; an entry that is `true` while the old map read `false`
appends an "outage" event, an entry that is `false` while the old map read
`true` appends a "recovery" event. -/
def outageEvents (oldOutages newOutages : List (String × Bool)) : List Event :=
  newOutages.flatMap (fun p =>
    let wasOutage := lookupOutage oldOutages p.1
    if p.2 && !wasOutage then [⟨"outage", p.1, "", p.1 ++ " ISP outage detected"⟩]
    else if !p.2 && wasOutage then [⟨"recovery", p.1, "", p.1 ++ " ISP recovered from outage"⟩]
    else [])

/-- Everything one `runPingCycle` invocation writes: the events appended (in
append order: status events first, then outage/recovery events), the
`UpdateStatus` calls, the `UpdateMonitoredHop` calls, the uptime snapshot
(total, up, down), and the outage map installed at the end of the cycle. -/
structure CycleOutput where
  events : List Event
  statusUpdates : List (String × String × Option Nat)
  hopUpdates : List (String × String × Nat)
  snapshot : Option (Nat × Nat × Nat)
  newOutages : List (String × Bool)
deriving DecidableEq

/-- Embeds `Scheduler.runPingCycle`. `listing1` is the `ListAll` at the start of the
cycle, `listing2` the `ListAll` inside `analyzeISPOutages`. If the first
listing fails or is empty the cycle returns early and the outage state is left
unchanged; otherwise every endpoint is monitored, status-change events and
status updates are recorded, a snapshot is appended, and the recomputed outage
map wholesale-replaces the previous one after outage/recovery events are
recorded from it. -/
def runPingCycle (oldOutages : List (String × Bool))
    (listing1 listing2 : Except Unit (List Endpoint))
    (ping : String → Bool) (trace : TraceEnv) (now : Nat) : CycleOutput :=
  match listing1 with
  | .error _ => ⟨[], [], [], none, oldOutages⟩
  | .ok endpoints =>
    if endpoints.isEmpty then ⟨[], [], [], none, oldOutages⟩
    else
      let results := endpoints.map (fun ep => (ep, monitorEndpoint ping trace now ep))
      let sEvents := results.flatMap (fun pr => statusChangeEvents pr.1 pr.1.status pr.2.status)
      let updates := results.map (fun pr => (pr.1.id, pr.2.status, pr.2.lastOK))
      let hopUpds := results.filterMap (fun pr => pr.2.hopUpdate.map (fun hu => (pr.1.id, hu)))
      let up := (results.filter (fun pr => pr.2.status == "up")).length
      let newOutages := analyzeISPOutages listing2
      let oEvents := outageEvents oldOutages newOutages
      ⟨sEvents ++ oEvents, updates, hopUpds,
        some (endpoints.length, up, endpoints.length - up), newOutages⟩

/-! ### ASN classifier (internal/isp, the `asnConfig` version) -/

/-- Embeds `isp.ISPConfig`. -/
structure ISPConfig where
  display : String
  allowed : Bool
deriving DecidableEq

/-- Embeds `isp.cacheEntry`. The `allowed` field is never set by `ClassifyISP`
(struct literal leaves it at its zero value `false`). -/
structure CacheEntry where
  isp : String
  allowed : Bool
  expiresAt : Nat
deriving DecidableEq

/-- Embeds `isp.Classifier`. The Go maps `cache` and `asnConfig` are association
lists with unique keys; `cacheOrder` is the insertion-order slice. -/
structure Classifier where
  cache : List (String × CacheEntry)
  cacheOrder : List String
  cacheTTL : Nat
  maxCacheSize : Nat
  asnConfig : List (Int × ISPConfig)
deriving DecidableEq

/-- Deleting a key from a Go map (`delete(c.cache, k)`). -/
def mapErase (m : List (String × CacheEntry)) (k : String) : List (String × CacheEntry) :=
  m.filter (fun p => p.1 != k)

/-- Inserting into a Go map (`c.cache[k] = v`), overwriting any old entry. -/
def mapInsert (m : List (String × CacheEntry)) (k : String) (v : CacheEntry) :
    List (String × CacheEntry) :=
  mapErase m k ++ [(k, v)]

/-- Embeds `isp.NewClassifier()`: empty cache, 24-hour TTL (in seconds here) and a
maximum cache size of 10000 entries; the ASN table is filled by `LoadConfig`,
which wholesale-replaces `asnConfig`. -/
def NewClassifier : Classifier :=
  ⟨[], [], 24 * 60 * 60, 10000, []⟩

/-- A DNS TXT resolution oracle: the records returned for a query name, or
`none` for a lookup error. -/
def TXTOracle := String → Option (List String)

/-- Embeds `strings.Split` restricted to a single-character separator (the only kind
the classifier uses: '.', '|' and ' '), on character lists. -/
def splitOnChar (sep : Char) : List Char → List (List Char)
  | [] => [[]]
  | c :: rest =>
    if c = sep then [] :: splitOnChar sep rest
    else
      match splitOnChar sep rest with
      | [] => [[c]]
      | h :: t => (c :: h) :: t

/-- Embeds `strings.Split` with a one-character separator, on strings. -/
def goSplit (sep : Char) (s : String) : List String :=
  (splitOnChar sep s.toList).map String.mk

/-- Decimal interpretation of a nonempty all-digit character list (the
semantics of Go's unsigned decimal parsing used by `Atoi`/`Sscanf`). -/
def charsToNat? (cs : List Char) : Option Nat :=
  if cs ≠ [] ∧ cs.all Char.isDigit then
    some (cs.foldl (fun acc c => acc * 10 + (c.toNat - '0'.toNat)) 0)
  else none

/-- Decimal parse of a string, `none` unless it is a nonempty digit run. -/
def goToNat? (s : String) : Option Nat :=
  charsToNat? s.toList

/-- Embeds `strings.TrimSpace` on character lists. -/
def trimChars (cs : List Char) : List Char :=
  ((cs.dropWhile Char.isWhitespace).reverse.dropWhile Char.isWhitespace).reverse

/-- Embeds `strings.TrimSpace`. -/
def goTrim (s : String) : String :=
  String.mk (trimChars s.toList)

/-- Embeds `net.ParseIP` followed by `To4`, restricted to dotted-quad IPv4 literals:
four dot-separated decimal components, each at most 255. Every other form
(IPv6, malformed input) yields `none`, which `LookupASN` turns into the same
error return Go produces for invalid or non-IPv4 addresses. -/
def parseIPv4 (s : String) : Option (Nat × Nat × Nat × Nat) :=
  match (goSplit '.' s).mapM goToNat? with
  | some [a, b, c, d] =>
    if a ≤ 255 && b ≤ 255 && c ≤ 255 && d ≤ 255 then some (a, b, c, d) else none
  | _ => none

/-- Embeds `fmt.Sscanf(s, "%d", &asn)` with the error ignored: parse an optional sign
and a maximal run of leading digits; if there is none, the target keeps its
zero value. -/
def sscanfInt (s : String) : Int :=
  match s.toList with
  | '-' :: rest =>
    match charsToNat? (rest.takeWhile Char.isDigit) with
    | none => 0
    | some n => -(n : Int)
  | cs =>
    match charsToNat? (cs.takeWhile Char.isDigit) with
    | none => 0
    | some n => (n : Int)

/-- Embeds `strings.Fields` restricted to space-separated content (the ASN field of a
Cymru TXT record): split on spaces and drop empty pieces. -/
def spaceFields (s : String) : List String :=
  (goSplit ' ' s).filter (fun p => p != "")

/-- Embeds `Classifier.LookupASN` over a TXT oracle. Returns the parsed result (or
the error) together with the list of DNS queries actually issued. The query is
the reversed dotted-octet form of the address under `origin.asn.cymru.com`;
the first record is split on `|`, the first field's first space-separated
token is scanned as the ASN, the second field is the CIDR. -/
def LookupASN (txt : TXTOracle) (ip : String) : Except String (Int × String) × List String :=
  match parseIPv4 ip with
  | none => (Except.error "invalid IP address", [])
  | some (a, b, c, d) =>
    let query := toString d ++ "." ++ toString c ++ "." ++ toString b ++ "." ++ toString a
      ++ ".origin.asn.cymru.com"
    match txt query with
    | none => (Except.error "ASN lookup failed", [query])
    | some [] => (Except.ok (0, ""), [query])
    | some (r :: _) =>
      match goSplit '|' r with
      | p0 :: p1 :: _ =>
        let asn := match spaceFields (goTrim p0) with
          | [] => 0
          | f :: _ => sscanfInt f
        (Except.ok (asn, goTrim p1), [query])
      | _ => (Except.error "unexpected ASN response format", [query])

/-- The positions at which `sub` occurs in `s` (as `strings.Index` counts them
for the ASCII strings involved). -/
def subIdxList (sub s : List Char) : List Nat :=
  (List.range (s.length + 1)).filter (fun i => sub.isPrefixOf (s.drop i))

/-- Embeds `strings.Index`: position of the first occurrence, if any. -/
def firstIdxOf? (sub s : List Char) : Option Nat :=
  (subIdxList sub s).head?

/-- Embeds `strings.LastIndex`: position of the last occurrence, if any. -/
def lastIdxOf? (sub s : List Char) : Option Nat :=
  (subIdxList sub s).getLast?

/-- Embeds `strings.TrimSuffix`. -/
def trimSuffixStr (s suf : String) : String :=
  if suf.toList.isSuffixOf s.toList then
    String.mk (s.toList.take (s.toList.length - suf.toList.length))
  else s

/-- Embeds `isp.cleanOrgName`: keep the part after a non-leading " - ", drop a short
trailing ", CC"-style country suffix, strip the listed corporate suffixes, and
trim whitespace. -/
def cleanOrgName (org0 : String) : String :=
  let cs := org0.toList
  let cs := match firstIdxOf? " - ".toList cs with
    | some idx => if idx > 0 then cs.drop (idx + 3) else cs
    | none => cs
  let cs := match lastIdxOf? ", ".toList cs with
    | some idx => if idx > 0 && cs.length - idx ≤ 5 then cs.take idx else cs
    | none => cs
  let s := String.mk cs
  let s := trimSuffixStr s ", Inc."
  let s := trimSuffixStr s ", LLC"
  let s := trimSuffixStr s ", Ltd."
  let s := trimSuffixStr s ", Corp."
  goTrim s

/-- Embeds `Classifier.LookupASNInfo` over a TXT oracle, with the issued queries. The
query is `AS<asn>.asn.cymru.com`; the fifth `|`-field of the first record is
the organisation string, the part before a non-leading " - " the name. -/
def LookupASNInfo (txt : TXTOracle) (asn : Int) : Except String (String × String) × List String :=
  let query := "AS" ++ toString asn ++ ".asn.cymru.com"
  match txt query with
  | none => (Except.error "ASN info lookup failed", [query])
  | some [] => (Except.ok ("", ""), [query])
  | some (r :: _) =>
    match goSplit '|' r with
    | _ :: _ :: _ :: _ :: p4 :: _ =>
      let org := goTrim p4
      let name := match firstIdxOf? " - ".toList org.toList with
        | some idx => if idx > 0 then String.mk (org.toList.take idx) else org
        | none => org
      (Except.ok (name, org), [query])
    | _ => (Except.error "unexpected ASN info format", [query])

/-- What one `ClassifyISP` call returns and does: the ISP name, the Go error
value, the classifier state afterwards, and the DNS queries issued. -/
structure ClassifyResult where
  isp : String
  error : Option String
  c : Classifier
  queries : List String
deriving DecidableEq

/-- The eviction loop of `ClassifyISP`: while the cache is at or above
`maxSize` and the order slice is nonempty, pop the front of the order slice
and delete that key from the cache. -/
def evictLoop (maxSize : Nat) :
    List (String × CacheEntry) → List String → List (String × CacheEntry) × List String
  | cache, [] => (cache, [])
  | cache, o :: rest =>
    if maxSize ≤ cache.length then evictLoop maxSize (mapErase cache o) rest
    else (cache, o :: rest)

/-- The tail of `ClassifyISP` when a result is cached: run the eviction loop,
insert the entry with expiry `now + TTL` (its `allowed` field left at the zero
value), and append the address to the insertion-order slice. -/
def finishInsert (c : Classifier) (now : Nat) (ip ispName : String) (qs : List String) :
    ClassifyResult :=
  let ev := evictLoop c.maxCacheSize c.cache c.cacheOrder
  ⟨ispName, none,
    { c with cache := mapInsert ev.1 ip ⟨ispName, false, now + c.cacheTTL⟩,
             cacheOrder := ev.2 ++ [ip] },
    qs⟩

/-- The cache-miss path of `ClassifyISP`: ASN lookup (errors and a zero ASN
return "Unknown" without caching), then the configured rule table, with a
fallback to the cleaned organisation name from `LookupASNInfo` ("Unknown" when
that lookup fails or the organisation is empty); any result reached past the
zero-ASN check is cached. -/
def classifyMiss (c : Classifier) (txt : TXTOracle) (now : Nat) (ip : String) : ClassifyResult :=
  match LookupASN txt ip with
  | (Except.error e, qs) => ⟨"Unknown", some e, c, qs⟩
  | (Except.ok (asn, _), qs) =>
    if asn = 0 then ⟨"Unknown", none, c, qs⟩
    else
      match c.asnConfig.lookup asn with
      | some cfg => finishInsert c now ip cfg.display qs
      | none =>
        match LookupASNInfo txt asn with
        | (Except.error _, qs2) => finishInsert c now ip "Unknown" (qs ++ qs2)
        | (Except.ok (_, org), qs2) =>
          if org = "" then finishInsert c now ip "Unknown" (qs ++ qs2)
          else finishInsert c now ip (cleanOrgName org) (qs ++ qs2)

/-- Embeds `Classifier.ClassifyISP`: on a live (non-expired) cache hit return the
cached name immediately, with no DNS query and no state change; otherwise take
the miss path. -/
def ClassifyISP (c : Classifier) (txt : TXTOracle) (now : Nat) (ip : String) : ClassifyResult :=
  match c.cache.lookup ip with
  | some entry =>
    if now < entry.expiresAt then ⟨entry.isp, none, c, []⟩
    else classifyMiss c txt now ip
  | none => classifyMiss c txt now ip

/-- The classifier states reachable at runtime: a fresh classifier with some
loaded rule table, and anything obtained from a reachable state by
`ClassifyISP` or `ClearCache`. -/
inductive Reachable : Classifier → Prop where
  | base (cfg : List (Int × ISPConfig)) : Reachable { NewClassifier with asnConfig := cfg }
  | step (c : Classifier) (txt : TXTOracle) (now : Nat) (ip : String) :
      Reachable c → Reachable (ClassifyISP c txt now ip).c
  | clear (c : Classifier) : Reachable c → Reachable { c with cache := [], cacheOrder := [] }

/-- The structural invariant of the classifier cache: cached keys are
pairwise distinct, every cached key appears in the insertion-order slice, the
cache is within the size bound, and the bound is positive. -/
def CacheWF (c : Classifier) : Prop :=
  (c.cache.map Prod.fst).Nodup ∧ (∀ p ∈ c.cache, p.1 ∈ c.cacheOrder) ∧
    c.cache.length ≤ c.maxCacheSize ∧ 1 ≤ c.maxCacheSize

/-- The first key of the insertion-order slice that is still a live key of the
cache: the entry the eviction loop will actually remove. -/
def oldestLiveKey (c : Classifier) : Option String :=
  c.cacheOrder.find? (fun k => (c.cache.lookup k).isSome)

/-- A cache miss at time `now` for address `ip`: any cached entry has
expired. -/
def cacheMissAt (c : Classifier) (now : Nat) (ip : String) : Prop :=
  ∀ e, c.cache.lookup ip = some e → e.expiresAt ≤ now

/-! ### Settings and the configured outage threshold (storage settings file) -/

/-- Embeds `storage.SettingOutageThreshold`. -/
def SettingOutageThreshold : String := "outage_threshold"

/-- Embeds `storage.DefaultOutageThreshold` (0.5, exactly representable). -/
def DefaultOutageThreshold : ℚ := 1 / 2

/-- Embeds `storage.GetSetting` over an in-memory settings table: a missing key reads
as the empty string (`sql.ErrNoRows`). -/
def GetSetting (settings : List (String × String)) (key : String) : String :=
  match settings.lookup key with
  | some v => v
  | none => ""

/-- Embeds `strconv.ParseFloat` restricted to plain decimal literals
(`digits[.digits]`, optional leading minus); all values `SetOutageThreshold`
ever writes (`FormatFloat(.., 'f', 2, 64)`) are of this form and are
represented exactly by the rational returned here. -/
def parseDecimal (s : String) : Option ℚ :=
  let cs := s.toList
  let neg := match cs with | '-' :: _ => true | _ => false
  let body := if neg then cs.drop 1 else cs
  let val : Option ℚ :=
    match splitOnChar '.' body with
    | [w] => (charsToNat? w).map (fun n => (n : ℚ))
    | [w, f] =>
      match charsToNat? w, charsToNat? f with
      | some n, some m => some ((n : ℚ) + (m : ℚ) / ((10 : ℚ) ^ f.length))
      | _, _ => none
    | _ => none
  val.map (fun q => if neg then -q else q)

/-- Embeds `storage.GetOutageThreshold`: the stored setting, or the default 0.5 when
it is unset, unparsable, or out of the range [0, 1]. -/
def GetOutageThreshold (settings : List (String × String)) : ℚ :=
  let val := GetSetting settings SettingOutageThreshold
  if val == "" then DefaultOutageThreshold
  else
    match parseDecimal val with
    | none => DefaultOutageThreshold
    | some threshold =>
      if threshold < 0 ∨ threshold > 1 then DefaultOutageThreshold else threshold

/-! ### Claim-side specification definitions -/

/-- The down-fraction rule exactly as claim C4 words it: the number of "down"
endpoints divided by the size of the set strictly exceeds the configured
threshold. -/
def downFractionRuleClaimC4 (threshold : ℚ) (eps : List Endpoint) : Bool :=
  decide ((((eps.filter (fun e => e.status == "down")).length : ℚ) / (eps.length : ℚ)) > threshold)

/-- The hop-data condition exactly as claim C2 words it: some monitored hop
address shared by at least 2 endpoints of the ISP such that the re-fetched
endpoint set for that hop has at least 2 members, all of them non-"up". -/
def hopRuleClaimC2 (endpoints eps : List Endpoint) : Bool :=
  eps.any (fun e =>
    e.useHop && e.monitoredHop != "" &&
    decide (2 ≤ (eps.filter (fun x => x.useHop && x.monitoredHop == e.monitoredHop)).length) &&
    (let hopEndpoints := GetEndpointsByMonitoredHop endpoints e.monitoredHop
     hopEndpoints.all (fun he => he.status != "up") && decide (2 ≤ hopEndpoints.length)))

/-- The per-ISP flag computed by `analyzeISPOutages`, written as a single
boolean; the analysis lemmas show the map built by `analyzeISPOutages` reads
back exactly this value. -/
def ispFlag (endpoints : List Endpoint) (isp : String) : Bool :=
  let eps := endpoints.filter (fun e => e.isp == isp)
  decide (2 ≤ eps.length) && (downFractionExceeded eps || hopRuleFires endpoints eps)

/-! ### Concrete instances used by counterexamples and witnesses -/

/-- A ping oracle under which nothing answers. -/
def pingNone : String → Bool := fun _ => false

/-- A ping oracle under which everything answers. -/
def pingAll : String → Bool := fun _ => true

/-- A traceroute environment in which no hop ever replies. -/
def traceSilent : TraceEnv := fun _ => some (fun _ => none)

/-- A never-answered endpoint: direct monitoring, no stored hop, zero
last-successful-probe time. -/
def epNeverUp : Endpoint :=
  ⟨"CCC-Endpoint-0001", "192.0.2.10", "Acme", "unknown", none, "", 0, false⟩

/-- An endpoint whose stored status is "unreachable" (as the data model's
status enum and the direct-ping variant of the scheduler produce) and whose
address answers pings. -/
def epUnreachableUp : Endpoint :=
  ⟨"CCC-Endpoint-0002", "192.0.2.11", "Acme", "unreachable", some 5, "", 0, false⟩

/-- ISP "X": one down endpoint monitoring hop `198.51.100.1`, two up
endpoints; ISP "Y": one down endpoint pointed at the same hop. Used by the C2
counterexample. -/
def hopSharedEndpoints : List Endpoint :=
  [⟨"x1", "192.0.2.21", "X", "down", some 1, "198.51.100.1", 3, true⟩,
   ⟨"x2", "192.0.2.22", "X", "up", some 2, "", 0, false⟩,
   ⟨"x3", "192.0.2.23", "X", "up", some 3, "", 0, false⟩,
   ⟨"y1", "192.0.2.24", "Y", "down", some 4, "198.51.100.1", 4, true⟩]

/-- ISP "Acme" with three endpoints, one of them down: down-fraction 1/3. -/
def acmeThirdDown : List Endpoint :=
  [⟨"a1", "192.0.2.31", "Acme", "down", some 1, "", 0, false⟩,
   ⟨"a2", "192.0.2.32", "Acme", "up", some 2, "", 0, false⟩,
   ⟨"a3", "192.0.2.33", "Acme", "up", some 3, "", 0, false⟩]

/-- Two "Acme" endpoints, both up. -/
def acmeBothUp : List Endpoint :=
  [⟨"a1", "192.0.2.41", "Acme", "up", some 1, "", 0, false⟩,
   ⟨"a2", "192.0.2.42", "Acme", "up", some 2, "", 0, false⟩]

/-- A settings table configuring the outage threshold to 0.25. -/
def settingsQuarter : List (String × String) :=
  [("outage_threshold", "0.25")]

/-- TXT oracle for the C6 counterexample: the origin lookup for `9.9.9.9`
resolves to ASN 64496, and the ASN-info lookup for that ASN fails. -/
def txtInfoFails : TXTOracle := fun q =>
  if q == "9.9.9.9.origin.asn.cymru.com" then
    some ["64496 | 9.9.9.0/24 | US | arin | 2020-01-01"]
  else none

/-- TXT oracle for the classifier witnesses: `198.51.100.7` resolves to ASN
64500. -/
def txtAcme : TXTOracle := fun q =>
  if q == "7.100.51.198.origin.asn.cymru.com" then
    some ["64500 | 198.51.100.0/24 | US | arin | 2020-01-01"]
  else none

/-- A two-entry classifier at capacity 2 (the eviction mechanism does not
depend on the configured bound being 10000), with "a" the oldest entry. -/
def classifierAtCap : Classifier :=
  ⟨[("a", ⟨"Alpha", false, 50⟩), ("b", ⟨"Beta", false, 60⟩)], ["a", "b"],
    24 * 60 * 60, 2, [((64500 : Int), ⟨"Acme", true⟩)]⟩

/-- A hop-monitoring endpoint (hop-fallback mode already configured). -/
def epHopMon : Endpoint :=
  ⟨"CCC-Endpoint-0003", "192.0.2.12", "Acme", "down", some 9, "198.51.100.9", 4, true⟩

/-- A path on which hop 1 answers time-exceeded, hop 2 is the destination,
and nothing else replies. -/
def probeTwoHops : ProbeOracle := fun t =>
  if t = 1 then some ("203.0.113.1", ICMPType.timeExceeded)
  else if t = 2 then some ("203.0.113.2", ICMPType.echoReply)
  else none

/-- A classifier holding one live cache entry for `198.51.100.7`. -/
def classifierHit : Classifier :=
  ⟨[("198.51.100.7", ⟨"Acme", false, 100⟩)], ["198.51.100.7"], 24 * 60 * 60, 10000, []⟩

/-- ISP "Acme" with four endpoints, three of them down: down-fraction 0.75. -/
def acmeMostlyDown : List Endpoint :=
  [⟨"m1", "192.0.2.51", "Acme", "down", some 1, "", 0, false⟩,
   ⟨"m2", "192.0.2.52", "Acme", "down", some 2, "", 0, false⟩,
   ⟨"m3", "192.0.2.53", "Acme", "down", some 3, "", 0, false⟩,
   ⟨"m4", "192.0.2.54", "Acme", "up", some 4, "", 0, false⟩]

/-! ### Theorems -/

theorem tracerouteFrom_len_le (oracle : ProbeOracle) :
    ∀ (f s : Nat), (tracerouteFrom oracle s f).hops.length ≤ f := by
  intro f
  induction f with
  | zero => intro s; simp [tracerouteFrom]
  | succ f ih =>
    intro s
    simp only [tracerouteFrom]
    cases h : (probeHop oracle s).reached with
    | true => simp [h]
    | false =>
      simp only [h, Bool.false_eq_true, if_false, List.length_cons]
      exact Nat.succ_le_succ (ih (s + 1))

theorem tracerouteFrom_len_pos (oracle : ProbeOracle) (f s : Nat) (hf : 0 < f) :
    0 < (tracerouteFrom oracle s f).hops.length := by
  cases f with
  | zero => omega
  | succ f =>
    simp only [tracerouteFrom]
    cases h : (probeHop oracle s).reached <;> simp [h]

theorem tracerouteFrom_hops_eq (oracle : ProbeOracle) :
    ∀ (f s : Nat), (tracerouteFrom oracle s f).hops
      = (List.range' s (tracerouteFrom oracle s f).hops.length).map (probeHop oracle) := by
  intro f
  induction f with
  | zero => intro s; simp [tracerouteFrom]
  | succ f ih =>
    intro s
    simp only [tracerouteFrom]
    cases h : (probeHop oracle s).reached with
    | true => simp [h, List.range'_one]
    | false =>
      simp only [h, Bool.false_eq_true, if_false, List.length_cons, List.range'_succ,
        List.map_cons, List.cons.injEq, true_and]
      exact ih (s + 1)

theorem tracerouteFrom_not_reached (oracle : ProbeOracle) :
    ∀ (f s i : Nat), i + 1 < (tracerouteFrom oracle s f).hops.length →
      (probeHop oracle (s + i)).reached = false := by
  intro f
  induction f with
  | zero => intro s i hi; simp [tracerouteFrom] at hi
  | succ f ih =>
    intro s i hi
    simp only [tracerouteFrom] at hi ⊢
    cases h : (probeHop oracle s).reached with
    | true => simp [h] at hi
    | false =>
      simp only [h, Bool.false_eq_true, if_false, List.length_cons] at hi
      cases i with
      | zero => simpa using h
      | succ j =>
        have := ih (s + 1) j (by omega)
        simpa [Nat.add_assoc, Nat.add_comm 1 j] using this

theorem tracerouteFrom_empty_not_reached (oracle : ProbeOracle) (f s : Nat)
    (h : (tracerouteFrom oracle s f).hops = []) :
    (tracerouteFrom oracle s f).reachedDst = false := by
  cases f with
  | zero => simp [tracerouteFrom]
  | succ f =>
    exfalso
    have := tracerouteFrom_len_pos oracle (f + 1) s (Nat.succ_pos f)
    rw [h] at this
    simp at this

theorem tracerouteFrom_reachedDst (oracle : ProbeOracle) :
    ∀ (f s : Nat), (tracerouteFrom oracle s f).reachedDst
      = (((tracerouteFrom oracle s f).hops.getLast?).map Hop.reached).getD false := by
  intro f
  induction f with
  | zero => intro s; simp [tracerouteFrom]
  | succ f ih =>
    intro s
    simp only [tracerouteFrom]
    cases h : (probeHop oracle s).reached with
    | true => simp [h]
    | false =>
      simp only [h, Bool.false_eq_true, if_false]
      show (tracerouteFrom oracle (s + 1) f).reachedDst = _
      rw [ih (s + 1)]
      cases hr : (tracerouteFrom oracle (s + 1) f).hops with
      | nil => simp [h]
      | cons x xs => rw [List.getLast?_cons_cons]

theorem tracerouteFrom_early (oracle : ProbeOracle) :
    ∀ (f s : Nat), (tracerouteFrom oracle s f).hops.length < f →
      (tracerouteFrom oracle s f).reachedDst = true := by
  intro f
  induction f with
  | zero => intro s hs; omega
  | succ f ih =>
    intro s hs
    simp only [tracerouteFrom] at hs ⊢
    cases h : (probeHop oracle s).reached with
    | true => simp [h]
    | false =>
      simp only [h, Bool.false_eq_true, if_false, List.length_cons] at hs ⊢
      exact ih (s + 1) (by omega)

theorem getLast?_cons_form {α : Type} (a : α) (l : List α) :
    (a :: l).getLast? = (match l.getLast? with | some x => some x | none => some a) := by
  cases hl : l.getLast? with
  | none =>
    cases l with
    | nil => simp
    | cons b m =>
      exfalso
      have hs : (b :: m).getLast?.isSome := List.getLast?_isSome.mpr (by simp)
      rw [hl] at hs
      simp at hs
  | some x =>
    cases l with
    | nil => simp at hl
    | cons b m => rw [List.getLast?_cons_cons, hl]

theorem tracerouteFrom_lastHop (oracle : ProbeOracle) :
    ∀ (f s : Nat), (tracerouteFrom oracle s f).lastHop
      = ((tracerouteFrom oracle s f).hops.filter (fun h => h.address != "")).getLast? := by
  intro f
  induction f with
  | zero => intro s; simp [tracerouteFrom]
  | succ f ih =>
    intro s
    simp only [tracerouteFrom]
    cases h : (probeHop oracle s).reached with
    | true =>
      by_cases haddr : (probeHop oracle s).address = "" <;>
        simp [h, haddr, List.filter_cons]
    | false =>
      simp only [h, Bool.false_eq_true, if_false]
      show (match (tracerouteFrom oracle (s + 1) f).lastHop with
            | some hh => some hh
            | none =>
              if (probeHop oracle s).address ≠ "" then some (probeHop oracle s) else none)
          = ((probeHop oracle s :: (tracerouteFrom oracle (s + 1) f).hops).filter
              (fun hh => hh.address != "")).getLast?
      rw [ih (s + 1), List.filter_cons]
      by_cases haddr : (probeHop oracle s).address = ""
      · simp only [haddr, bne_self_eq_false, Bool.false_eq_true, if_false, ne_eq,
          not_true_eq_false]
        cases hfl : (((tracerouteFrom oracle (s + 1) f).hops.filter
            (fun hh => hh.address != "")).getLast?) <;> simp
      · have hb : ((probeHop oracle s).address != "") = true := by
          simpa using haddr
        simp only [hb, if_true, ne_eq, haddr, not_false_eq_true, if_pos]
        rw [getLast?_cons_form]
        cases ((tracerouteFrom oracle (s + 1) f).hops.filter
            (fun hh => hh.address != "")).getLast? <;> rfl


/-- C1 (counterexample): for an endpoint that has never answered at all (no
hop-fallback configured, zero last-ok time), with every ping failing and no
hop responding, the code sets the status to "down" while the claim's decision
procedure requires "unreachable". -/
theorem monitorEndpoint_claimC1_cex :
    (monitorEndpoint pingNone traceSilent 0 epNeverUp).status = "down" ∧
      (monitorEndpointClaimC1 pingNone traceSilent 0 epNeverUp).status = "unreachable" := by
  constructor <;> rfl

/-- C1 (amended): the per-cycle monitoring outcome follows the claimed
decision procedure with its final clause amended to: in all remaining cases
the status becomes "down" (the code never yields "unreachable" here). Stated
for endpoints whose stored hop is consistent with the hop-fallback flag, as
`UpdateMonitoredHop` maintains. -/
theorem monitorEndpoint_amendedC1 (ping : String → Bool) (trace : TraceEnv) (now : Nat)
    (ep : Endpoint) (hWF : ep.useHop = true → ep.monitoredHop ≠ "") :
    monitorEndpoint ping trace now ep = monitorEndpointAmendedC1 ping trace now ep := by
  unfold monitorEndpoint monitorEndpointAmendedC1
  cases hu : ep.useHop with
  | false => simp
  | true =>
    have hne : ep.monitoredHop ≠ "" := hWF hu
    simp [hu, hne]

/-- C1 (witness): the amended theorem applied to a concrete hop-monitoring
endpoint. -/
theorem monitorEndpoint_amendedC1_witness :
    (epHopMon.useHop = true → epHopMon.monitoredHop ≠ "") ∧
      monitorEndpoint pingAll traceSilent 7 epHopMon
        = monitorEndpointAmendedC1 pingAll traceSilent 7 epHopMon :=
  ⟨by decide, monitorEndpoint_amendedC1 pingAll traceSilent 7 epHopMon (by decide)⟩

/-- C9: `Traceroute` probes TTLs 1..30 one probe per TTL (the hop list is
exactly `probeHop` applied to the consecutive TTLs it visited), continues past
every non-reached hop, terminates exactly when a hop is marked reached (so an
early stop implies the destination or path edge was reached, and
`reachedDst` equals the final hop's reached flag), keeps the last responding
hop as the last hop of the list that carried an address, and classifies each
reply as the claim specifies: echo-reply and destination-unreachable replies
terminate with `reached = true`, a time-exceeded reply continues, and a
missing reply is recorded as a non-responding hop while probing continues. -/
theorem Traceroute_ttlLoop_C9 (oracle : ProbeOracle) :
    (1 ≤ (Traceroute tracerMaxHops oracle).hops.length
        ∧ (Traceroute tracerMaxHops oracle).hops.length ≤ 30)
    ∧ (Traceroute tracerMaxHops oracle).hops
        = (List.range' 1 (Traceroute tracerMaxHops oracle).hops.length).map (probeHop oracle)
    ∧ (∀ i, i + 1 < (Traceroute tracerMaxHops oracle).hops.length →
        (probeHop oracle (1 + i)).reached = false)
    ∧ ((Traceroute tracerMaxHops oracle).reachedDst = true
        ↔ (probeHop oracle ((Traceroute tracerMaxHops oracle).hops.length)).reached = true)
    ∧ ((Traceroute tracerMaxHops oracle).hops.length < 30 →
        (Traceroute tracerMaxHops oracle).reachedDst = true)
    ∧ (Traceroute tracerMaxHops oracle).lastHop
        = ((Traceroute tracerMaxHops oracle).hops.filter (fun h => h.address != "")).getLast?
    ∧ (∀ t a, (oracle t = none → probeHop oracle t = ⟨t, "", false⟩)
        ∧ (oracle t = some (a, ICMPType.echoReply) → probeHop oracle t = ⟨t, a, true⟩)
        ∧ (oracle t = some (a, ICMPType.timeExceeded) → probeHop oracle t = ⟨t, a, false⟩)
        ∧ (oracle t = some (a, ICMPType.destUnreachable) → probeHop oracle t = ⟨t, a, true⟩)) := by
  simp only [Traceroute, tracerMaxHops]
  have hpos : 0 < (tracerouteFrom oracle 1 30).hops.length :=
    tracerouteFrom_len_pos oracle 30 1 (by norm_num)
  refine ⟨⟨hpos, tracerouteFrom_len_le oracle 30 1⟩, tracerouteFrom_hops_eq oracle 30 1,
    fun i hi => tracerouteFrom_not_reached oracle 30 1 i hi, ?_,
    tracerouteFrom_early oracle 30 1, tracerouteFrom_lastHop oracle 30 1, ?_⟩
  · have hget : (tracerouteFrom oracle 1 30).hops.getLast?
        = some (probeHop oracle ((tracerouteFrom oracle 1 30).hops.length)) := by
      conv_lhs => rw [tracerouteFrom_hops_eq oracle 30 1]
      rw [List.getLast?_map, List.getLast?_range']
      have hne : ¬ ((tracerouteFrom oracle 1 30).hops.length = 0) := by omega
      simp only [hne, if_false, Option.map_some]
      have harith : 1 + (tracerouteFrom oracle 1 30).hops.length - 1
          = (tracerouteFrom oracle 1 30).hops.length := by omega
      rw [harith]
      rfl
    rw [tracerouteFrom_reachedDst oracle 30 1, hget]
    simp
  · intro t a
    refine ⟨?_, ?_, ?_, ?_⟩ <;> intro h <;> simp [probeHop, h]

/-- C9 (witness): the classification and early-termination clauses applied to
a concrete two-hop path. -/
theorem Traceroute_ttlLoop_C9_witness :
    probeHop probeTwoHops 2 = ⟨2, "203.0.113.2", true⟩
      ∧ probeHop probeTwoHops 1 = ⟨1, "203.0.113.1", false⟩
      ∧ probeHop probeTwoHops 3 = ⟨3, "", false⟩
      ∧ (Traceroute tracerMaxHops probeTwoHops).reachedDst = true := by
  refine ⟨((Traceroute_ttlLoop_C9 probeTwoHops).2.2.2.2.2.2 2 "203.0.113.2").2.1 rfl,
    ((Traceroute_ttlLoop_C9 probeTwoHops).2.2.2.2.2.2 1 "203.0.113.1").2.2.1 rfl,
    ((Traceroute_ttlLoop_C9 probeTwoHops).2.2.2.2.2.2 3 "x").1 rfl,
    (Traceroute_ttlLoop_C9 probeTwoHops).2.2.2.2.1 (by decide)⟩

theorem statusChangeEvents_endpointId (ep : Endpoint) (o n : String) :
    ∀ v ∈ statusChangeEvents ep o n, v.endpointId = ep.id := by
  intro v hv
  unfold statusChangeEvents at hv
  split at hv
  · split at hv
    · simp at hv; subst hv; rfl
    · split at hv
      · simp at hv; subst hv; rfl
      · simp at hv
  · simp at hv

theorem statusChangeEvents_etype (ep : Endpoint) (o n : String) :
    ∀ v ∈ statusChangeEvents ep o n, v.etype = "down" ∨ v.etype = "up" := by
  intro v hv
  unfold statusChangeEvents at hv
  split at hv
  · split at hv
    · simp at hv; subst hv; left; rfl
    · split at hv
      · simp at hv; subst hv; right; rfl
      · simp at hv
  · simp at hv

theorem statusChangeEvents_length (ep : Endpoint) (o n : String) :
    (statusChangeEvents ep o n).length
      = if o ≠ n ∧ o ≠ "unknown" ∧ (n = "down" ∨ (n = "up" ∧ o = "down")) then 1 else 0 := by
  unfold statusChangeEvents
  by_cases h1 : o = n
  · simp [h1]
  · by_cases h2 : o = "unknown"
    · simp [h1, h2]
    · by_cases h3 : n = "down"
      · have h1' : o ≠ "down" := h3 ▸ h1
        simp [h1', h2, h3]
      · by_cases h4 : n = "up" <;> by_cases h5 : o = "down" <;> simp_all

theorem outageEvents_endpointId (a b : List (String × Bool)) :
    ∀ v ∈ outageEvents a b, v.endpointId = "" := by
  intro v hv
  unfold outageEvents at hv
  rw [List.mem_flatMap] at hv
  obtain ⟨p, _, hv⟩ := hv
  by_cases hc1 : (p.2 && !(lookupOutage a p.1)) = true
  · simp only [hc1, if_true, List.mem_singleton] at hv
    subst hv; rfl
  · by_cases hc2 : (!p.2 && lookupOutage a p.1) = true
    · simp only [hc1, hc2, Bool.false_eq_true, if_false, if_true, List.mem_singleton] at hv
      subst hv; rfl
    · simp only [hc1, hc2, Bool.false_eq_true, if_false, List.not_mem_nil] at hv

theorem statusEvents_filter_self (ping : String → Bool) (trace : TraceEnv) (now : Nat)
    (ep : Endpoint) :
    ((statusChangeEvents ep ep.status (monitorEndpoint ping trace now ep).status).filter
      (fun v => v.endpointId == ep.id))
      = statusChangeEvents ep ep.status (monitorEndpoint ping trace now ep).status := by
  apply List.filter_eq_self.mpr
  intro v hv
  have := statusChangeEvents_endpointId ep _ _ v hv
  simp [this]

theorem statusEvents_filter_ne (ping : String → Bool) (trace : TraceEnv) (now : Nat)
    (e : Endpoint) (x : String) (hne : e.id ≠ x) :
    ((statusChangeEvents e e.status (monitorEndpoint ping trace now e).status).filter
      (fun v => v.endpointId == x)) = [] := by
  apply List.filter_eq_nil_iff.mpr
  intro v hv
  have := statusChangeEvents_endpointId e _ _ v hv
  simp [this, hne]

theorem flatMapStatus_filter_nil (ping : String → Bool) (trace : TraceEnv) (now : Nat)
    (x : String) :
    ∀ (t : List Endpoint), x ∉ t.map Endpoint.id →
      ((t.flatMap (fun e =>
          statusChangeEvents e e.status (monitorEndpoint ping trace now e).status)).filter
        (fun v => v.endpointId == x)) = [] := by
  intro t
  induction t with
  | nil => intro _; simp
  | cons e t ih =>
    intro hx
    simp only [List.map_cons, List.mem_cons, not_or] at hx
    simp only [List.flatMap_cons, List.filter_append]
    rw [statusEvents_filter_ne ping trace now e x (fun h => hx.1 h.symm), ih hx.2]
    rfl

theorem flatMapStatus_filter_len (ping : String → Bool) (trace : TraceEnv) (now : Nat) :
    ∀ (l : List Endpoint) (ep : Endpoint), ep ∈ l → (l.map Endpoint.id).Nodup →
      ((l.flatMap (fun e =>
          statusChangeEvents e e.status (monitorEndpoint ping trace now e).status)).filter
        (fun v => v.endpointId == ep.id)).length
      = (statusChangeEvents ep ep.status (monitorEndpoint ping trace now ep).status).length := by
  intro l
  induction l with
  | nil => intro ep h; simp at h
  | cons e t ih =>
    intro ep hmem hnodup
    simp only [List.map_cons, List.nodup_cons] at hnodup
    simp only [List.flatMap_cons, List.filter_append, List.length_append]
    rcases List.mem_cons.mp hmem with heq | hin
    · subst heq
      rw [statusEvents_filter_self, flatMapStatus_filter_nil ping trace now ep.id t hnodup.1]
      simp
    · have hne : e.id ≠ ep.id := by
        intro h
        exact hnodup.1 (h ▸ List.mem_map_of_mem Endpoint.id hin)
      rw [statusEvents_filter_ne ping trace now e ep.id hne, ih ep hin hnodup.2]
      simp

/-- C3 (counterexample): an endpoint whose stored status is "unreachable" and
whose address answers again changes status ("unreachable" → "up") with the
pre-cycle status not "unknown", yet the cycle appends no event at all — the
recovery event is only recorded for a transition from exactly "down". -/
theorem runPingCycle_claimC3_cex :
    epUnreachableUp.status ≠ (monitorEndpoint pingAll traceSilent 0 epUnreachableUp).status
      ∧ epUnreachableUp.status ≠ "unknown"
      ∧ (runPingCycle [] (Except.ok [epUnreachableUp]) (Except.ok [])
          pingAll traceSilent 0).events = [] := by
  exact ⟨by decide, by decide, rfl⟩

/-- C3 (amended): in every cycle, an endpoint (among endpoints with distinct,
nonempty identifiers) has exactly one event recorded for it when its status
changed from a non-"unknown" value and the change either enters "down" or
recovers from exactly "down" to "up", and zero events otherwise — in
particular an unchanged endpoint, and also a transition to "up" from a status
other than "down" (such as "unreachable"), produces no event. -/
theorem runPingCycle_statusEvents_amendedC3
    (oldOutages : List (String × Bool)) (listing2 : Except Unit (List Endpoint))
    (ping : String → Bool) (trace : TraceEnv) (now : Nat)
    (endpoints : List Endpoint) (ep : Endpoint)
    (hmem : ep ∈ endpoints) (hnodup : (endpoints.map Endpoint.id).Nodup) (hid : ep.id ≠ "") :
    ((runPingCycle oldOutages (Except.ok endpoints) listing2 ping trace now).events.filter
      (fun v => v.endpointId == ep.id)).length
      = if ep.status ≠ (monitorEndpoint ping trace now ep).status ∧ ep.status ≠ "unknown"
            ∧ ((monitorEndpoint ping trace now ep).status = "down"
                ∨ ((monitorEndpoint ping trace now ep).status = "up" ∧ ep.status = "down"))
        then 1 else 0 := by
  have hne : endpoints.isEmpty = false := by
    cases endpoints with
    | nil => simp at hmem
    | cons a t => rfl
  unfold runPingCycle
  simp only [hne, Bool.false_eq_true, if_false, List.filter_append, List.length_append]
  have ho : ((outageEvents oldOutages (analyzeISPOutages listing2)).filter
      (fun v => v.endpointId == ep.id)) = [] := by
    apply List.filter_eq_nil_iff.mpr
    intro v hv
    have hvid := outageEvents_endpointId _ _ v hv
    simp [hvid]
    exact fun h => hid h.symm
  rw [ho]
  have hmaps : ((endpoints.map (fun e => (e, monitorEndpoint ping trace now e))).flatMap
      (fun pr => statusChangeEvents pr.1 pr.1.status pr.2.status))
      = endpoints.flatMap
          (fun e => statusChangeEvents e e.status (monitorEndpoint ping trace now e).status) := by
    rw [List.flatMap_map]
  rw [hmaps, flatMapStatus_filter_len ping trace now endpoints ep hmem hnodup,
    statusChangeEvents_length]
  simp

/-- C3 (witness): the amended count applied to a one-endpoint population
recovering from "down" — exactly one event for it in that cycle. -/
theorem runPingCycle_statusEvents_amendedC3_witness :
    ((runPingCycle [] (Except.ok [epHopMon]) (Except.ok []) pingAll traceSilent 3).events.filter
      (fun v => v.endpointId == epHopMon.id)).length = 1 := by
  have h := runPingCycle_statusEvents_amendedC3 [] (Except.ok []) pingAll traceSilent 3
    [epHopMon] epHopMon (by simp) (by simp) (by decide)
  rw [h]
  decide

/-- C5 (failing input, evaluated): with ISP "Acme" flagged in the previous
outage state and no longer flagged by the new analysis (both its endpoints
up), the cycle installs the recomputed map wholesale — the flag is cleared —
but appends no event at all: the outage/recovery loop ranges over the new map,
which contains only flagged ISPs, so the recovery branch never runs. The
claim's "exactly one outage or recovery event per flipped ISP" fails for every
flagged→unflagged flip. -/
theorem runPingCycle_noRecoveryEvent_C5 :
    (runPingCycle [("Acme", true)] (Except.ok acmeBothUp) (Except.ok acmeBothUp)
        pingAll traceSilent 0).events = []
      ∧ (runPingCycle [("Acme", true)] (Except.ok acmeBothUp) (Except.ok acmeBothUp)
          pingAll traceSilent 0).newOutages = []
      ∧ IsISPOutage (runPingCycle [("Acme", true)] (Except.ok acmeBothUp)
          (Except.ok acmeBothUp) pingAll traceSilent 0).newOutages "Acme" = false := by
  exact ⟨rfl, rfl, rfl⟩

/-- C10: when the `ListAll` inside the outage analysis fails while the cycle
itself proceeded, the nil map is installed as the new outage state: every
subsequent `IsISPOutage` read is false, `HasAnyOutage` is false, and no outage
or recovery event is appended (in particular none for ISPs flagged before the
failure) — a single storage read error silently clears all outage flags. -/
theorem runPingCycle_analyzeError_C10
    (oldOutages : List (String × Bool)) (endpoints : List Endpoint)
    (ping : String → Bool) (trace : TraceEnv) (now : Nat) (isp : String)
    (hne : endpoints ≠ []) :
    (runPingCycle oldOutages (Except.ok endpoints) (Except.error ())
        ping trace now).newOutages = []
      ∧ ((runPingCycle oldOutages (Except.ok endpoints) (Except.error ())
          ping trace now).events.filter
            (fun v => v.etype == "outage" || v.etype == "recovery")) = []
      ∧ IsISPOutage (runPingCycle oldOutages (Except.ok endpoints) (Except.error ())
          ping trace now).newOutages isp = false
      ∧ HasAnyOutage (runPingCycle oldOutages (Except.ok endpoints) (Except.error ())
          ping trace now).newOutages = false := by
  have hempty : endpoints.isEmpty = false := by
    cases endpoints with
    | nil => exact absurd rfl hne
    | cons a t => rfl
  unfold runPingCycle
  simp only [hempty, Bool.false_eq_true, if_false]
  refine ⟨rfl, ?_, rfl, rfl⟩
  show (((endpoints.map (fun e => (e, monitorEndpoint ping trace now e))).flatMap
      (fun pr => statusChangeEvents pr.1 pr.1.status pr.2.status))
        ++ outageEvents oldOutages (analyzeISPOutages (Except.error ()))).filter
      (fun v => v.etype == "outage" || v.etype == "recovery") = []
  have houtage : outageEvents oldOutages (analyzeISPOutages (Except.error ())) = [] := rfl
  rw [houtage, List.append_nil]
  apply List.filter_eq_nil_iff.mpr
  intro v hv
  rw [List.mem_flatMap] at hv
  obtain ⟨pr, _, hv⟩ := hv
  rcases statusChangeEvents_etype pr.1 pr.1.status pr.2.status v hv with h | h <;> simp [h]

/-- C10 (witness): the theorem applied to a concrete nonempty population with
a previously flagged ISP. -/
theorem runPingCycle_analyzeError_C10_witness :
    (runPingCycle [("Acme", true)] (Except.ok acmeBothUp) (Except.error ())
        pingAll traceSilent 0).newOutages = []
      ∧ HasAnyOutage (runPingCycle [("Acme", true)] (Except.ok acmeBothUp) (Except.error ())
          pingAll traceSilent 0).newOutages = false := by
  have h := runPingCycle_analyzeError_C10 [("Acme", true)] acmeBothUp pingAll traceSilent 0
    "Acme" (by decide)
  exact ⟨h.1, h.2.2.2⟩

theorem analyze_body_eq (endpoints : List Endpoint) (x : String) :
    (let eps := endpoints.filter (fun e => e.isp == x)
     if eps.length < 2 then none
     else if downFractionExceeded eps then some (x, true)
     else if hopRuleFires endpoints eps then some (x, true)
     else none)
      = (if ispFlag endpoints x then some (x, true) else none) := by
  unfold ispFlag
  by_cases h1 : (endpoints.filter (fun e => e.isp == x)).length < 2
  · have h1' : ¬ (2 ≤ (endpoints.filter (fun e => e.isp == x)).length) := by omega
    simp [h1, h1']
  · have h1' : 2 ≤ (endpoints.filter (fun e => e.isp == x)).length := by omega
    by_cases h2 : downFractionExceeded (endpoints.filter (fun e => e.isp == x)) <;>
      by_cases h3 : hopRuleFires endpoints (endpoints.filter (fun e => e.isp == x)) <;>
        simp [h1, h1', h2, h3]

theorem lookup_flagList (g : String → Bool) :
    ∀ (l : List String), l.Nodup → ∀ x,
      ((l.filterMap (fun y => if g y then some (y, true) else none)).lookup x)
        = if x ∈ l ∧ g x then some true else none := by
  intro l
  induction l with
  | nil => intro _ x; simp
  | cons a t ih =>
    intro hnd x
    rw [List.nodup_cons] at hnd
    by_cases hga : g a = true
    · simp only [List.filterMap_cons, hga, if_true]
      by_cases hxa : x = a
      · subst hxa
        simp [List.lookup, hga]
      · have hbeq : (x == a) = false := by simp [hxa]
        simp only [List.lookup, hbeq]
        rw [ih hnd.2 x]
        by_cases hxt : x ∈ t <;> simp [hxt, hxa]
    · simp only [List.filterMap_cons, hga, Bool.false_eq_true, if_false]
      rw [ih hnd.2 x]
      by_cases hxa : x = a
      · subst hxa
        have hxt : x ∉ t := hnd.1
        simp [hxt, hga]
      · by_cases hxt : x ∈ t <;> simp [hxt, hxa]

/-- The outage map built by `analyzeISPOutages` reads back exactly the
per-ISP flag `ispFlag`. -/
theorem lookupOutage_analyze (endpoints : List Endpoint) (isp : String) :
    lookupOutage (analyzeISPOutages (Except.ok endpoints)) isp = ispFlag endpoints isp := by
  have hred : analyzeISPOutages (Except.ok endpoints)
      = ((endpoints.map (fun e => e.isp)).dedup).filterMap
          (fun x => if ispFlag endpoints x then some (x, true) else none) := by
    show ((endpoints.map (fun e => e.isp)).dedup).filterMap _ = _
    exact List.filterMap_congr (fun x _ => analyze_body_eq endpoints x)
  unfold lookupOutage
  rw [hred, lookup_flagList (ispFlag endpoints) ((endpoints.map (fun e => e.isp)).dedup)
    (List.nodup_dedup _) isp]
  by_cases hin : isp ∈ (endpoints.map (fun e => e.isp)).dedup
  · by_cases hg : ispFlag endpoints isp = true <;> simp [hin, hg]
  · have hfil : endpoints.filter (fun e => e.isp == isp) = [] := by
      apply List.filter_eq_nil_iff.mpr
      intro e he hbe
      apply hin
      rw [List.mem_dedup]
      rw [beq_iff_eq] at hbe
      exact hbe ▸ List.mem_map_of_mem (fun e => e.isp) he
    have hflag : ispFlag endpoints isp = false := by
      unfold ispFlag
      simp [hfil]
    simp [hin, hflag]

theorem downFraction_eq_half (eps : List Endpoint) :
    downFractionExceeded eps
      = decide ((((eps.filter (fun e => e.status == "down")).length : ℚ) / (eps.length : ℚ))
          > DefaultOutageThreshold) := by
  unfold downFractionExceeded DefaultOutageThreshold
  rcases Nat.eq_zero_or_pos eps.length with h0 | hpos
  · have hd : (eps.filter (fun e => e.status == "down")).length = 0 := by
      have := List.length_filter_le (fun e => e.status == "down") eps
      omega
    rw [h0, hd]
    norm_num
  · have hQ : (0:ℚ) < (eps.length : ℚ) := by exact_mod_cast hpos
    rw [decide_eq_decide, gt_iff_lt, gt_iff_lt, lt_div_iff₀ hQ]
    constructor
    · intro h
      have h2 : ((eps.length : ℚ))
          < 2 * ((eps.filter (fun e => e.status == "down")).length : ℚ) := by
        exact_mod_cast h
      linarith
    · intro h
      have h2 : ((eps.length : ℚ))
          < 2 * ((eps.filter (fun e => e.status == "down")).length : ℚ) := by
        linarith
      exact_mod_cast h2

/-- C4 (amended): the down-fraction rule is a comparison against the
*hardcoded* constant 0.5 (which coincides with `DefaultOutageThreshold` but
ignores the stored `outage_threshold` setting): for an ISP with N ≥ 2
endpoints the flag is set by this rule iff downCount/N > 1/2; at exactly 1/2
the rule does not fire; and an ISP with fewer than 2 endpoints receives no
outage judgment at all. -/
theorem analyze_downFraction_amendedC4 (endpoints : List Endpoint) (isp : String) :
    (downFractionExceeded (endpoints.filter (fun e => e.isp == isp))
        = decide (((((endpoints.filter (fun e => e.isp == isp)).filter
              (fun e => e.status == "down")).length : ℚ)
            / ((endpoints.filter (fun e => e.isp == isp)).length : ℚ))
          > DefaultOutageThreshold))
      ∧ ((endpoints.filter (fun e => e.isp == isp)).length < 2 →
          IsISPOutage (analyzeISPOutages (Except.ok endpoints)) isp = false)
      ∧ (2 ≤ (endpoints.filter (fun e => e.isp == isp)).length →
          downFractionExceeded (endpoints.filter (fun e => e.isp == isp)) = true →
          IsISPOutage (analyzeISPOutages (Except.ok endpoints)) isp = true)
      ∧ (2 * ((endpoints.filter (fun e => e.isp == isp)).filter
            (fun e => e.status == "down")).length
          = (endpoints.filter (fun e => e.isp == isp)).length →
          downFractionExceeded (endpoints.filter (fun e => e.isp == isp)) = false) := by
  refine ⟨downFraction_eq_half _, ?_, ?_, ?_⟩
  · intro h
    rw [IsISPOutage, lookupOutage_analyze]
    unfold ispFlag
    have h' : ¬ (2 ≤ (endpoints.filter (fun e => e.isp == isp)).length) := by omega
    simp [h']
  · intro hN hf
    rw [IsISPOutage, lookupOutage_analyze]
    unfold ispFlag
    simp [hN, hf]
  · intro heq
    unfold downFractionExceeded
    simp only [decide_eq_false_iff_not]
    omega

/-- C4 (witness): the amended rule applied concretely — 3 of 4 endpoints down
(fraction 0.75 > 0.5) flags the ISP; a single-endpoint ISP is skipped. -/
theorem analyze_downFraction_amendedC4_witness :
    IsISPOutage (analyzeISPOutages (Except.ok acmeMostlyDown)) "Acme" = true
      ∧ IsISPOutage (analyzeISPOutages (Except.ok [epHopMon])) "Acme" = false := by
  exact ⟨(analyze_downFraction_amendedC4 acmeMostlyDown "Acme").2.2.1 (by decide) (by decide),
    (analyze_downFraction_amendedC4 [epHopMon] "Acme").2.1 (by decide)⟩

/-- C4 (counterexample): with the outage threshold configured to 0.25 (a value
`SetOutageThreshold` accepts and `GetOutageThreshold` returns), an ISP with 3
endpoints of which 1 is down has down-fraction 1/3 > 0.25, so the claim's rule
("strictly exceeds the configured threshold") says the flag is set by the
down-fraction rule — but the code, which compares against the hardcoded 0.5
and never consults the setting, does not flag it. -/
theorem downFraction_claimC4_cex :
    GetOutageThreshold settingsQuarter = 1 / 4
      ∧ 2 ≤ (acmeThirdDown.filter (fun e => e.isp == "Acme")).length
      ∧ downFractionRuleClaimC4 (GetOutageThreshold settingsQuarter)
          (acmeThirdDown.filter (fun e => e.isp == "Acme")) = true
      ∧ IsISPOutage (analyzeISPOutages (Except.ok acmeThirdDown)) "Acme" = false := by
  have h1 : GetOutageThreshold settingsQuarter
      = (if (((0:Nat):ℚ) + ((25:Nat):ℚ) / ((10:ℚ) ^ (2:Nat))) < 0
            ∨ (((0:Nat):ℚ) + ((25:Nat):ℚ) / ((10:ℚ) ^ (2:Nat))) > 1
         then DefaultOutageThreshold
         else (((0:Nat):ℚ) + ((25:Nat):ℚ) / ((10:ℚ) ^ (2:Nat)))) := rfl
  have hno : ¬ ((((0:Nat):ℚ) + ((25:Nat):ℚ) / ((10:ℚ) ^ (2:Nat))) < 0
      ∨ (((0:Nat):ℚ) + ((25:Nat):ℚ) / ((10:ℚ) ^ (2:Nat))) > 1) := by norm_num
  have hthr : GetOutageThreshold settingsQuarter = 1 / 4 := by
    rw [h1, if_neg hno]
    norm_num
  refine ⟨hthr, by decide, ?_, by decide⟩
  unfold downFractionRuleClaimC4
  rw [hthr, decide_eq_true_eq]
  have hd : ((acmeThirdDown.filter (fun e => e.isp == "Acme")).filter
      (fun e => e.status == "down")).length = 1 := rfl
  have hN : (acmeThirdDown.filter (fun e => e.isp == "Acme")).length = 3 := rfl
  rw [hd, hN]
  norm_num

theorem filter_down_le (eps : List Endpoint) (hop : String) :
    (eps.filter (fun x => x.status == "down" && x.useHop && x.monitoredHop == hop)).length
      ≤ (eps.filter (fun x => x.useHop && x.monitoredHop == hop)).length := by
  have heq : (eps.filter (fun x => x.useHop && x.monitoredHop == hop)).filter
      (fun x => x.status == "down")
      = eps.filter (fun x => x.status == "down" && x.useHop && x.monitoredHop == hop) := by
    rw [List.filter_filter]
    apply List.filter_congr
    intro x _
    cases hx : x.status == "down" <;> cases hy : x.useHop <;>
      cases hz : x.monitoredHop == hop <;> simp [hx, hy, hz]
  rw [← heq]
  exact List.length_filter_le _ _

/-- C2 (amended): for an ISP with at least 2 endpoints whose down-fraction
does not exceed 1/2, the ISP is flagged iff there is some nonempty monitored
hop address for which the `sharedHops` tally of the ISP reaches 2 — that is,
either at least 2 hop-monitoring endpoints of the ISP share it, or at least 1
*down* hop-monitoring endpoint of the ISP uses it (a down endpoint is counted
twice) — such that the re-fetched endpoint set for that hop (any ISP) has at
least 2 members, all non-"up". In particular a hop monitored by a single down
endpoint of the ISP does satisfy the sharing condition by itself. -/
theorem analyze_hopRule_amendedC2 (endpoints : List Endpoint) (isp : String)
    (hN : 2 ≤ (endpoints.filter (fun e => e.isp == isp)).length)
    (hfrac : downFractionExceeded (endpoints.filter (fun e => e.isp == isp)) = false) :
    IsISPOutage (analyzeISPOutages (Except.ok endpoints)) isp = true
      ↔ ∃ hop, hop ≠ ""
          ∧ (2 ≤ ((endpoints.filter (fun e => e.isp == isp)).filter
                (fun x => x.useHop && x.monitoredHop == hop)).length
            ∨ 1 ≤ ((endpoints.filter (fun e => e.isp == isp)).filter
                (fun x => x.status == "down" && x.useHop && x.monitoredHop == hop)).length)
          ∧ 2 ≤ (GetEndpointsByMonitoredHop endpoints hop).length
          ∧ ∀ he ∈ GetEndpointsByMonitoredHop endpoints hop, he.status ≠ "up" := by
  rw [IsISPOutage, lookupOutage_analyze]
  have hflag : ispFlag endpoints isp
      = hopRuleFires endpoints (endpoints.filter (fun e => e.isp == isp)) := by
    unfold ispFlag
    simp [hN, hfrac]
  rw [hflag]
  unfold hopRuleFires
  rw [List.any_eq_true]
  constructor
  · rintro ⟨e, he, hP⟩
    simp only [Bool.and_eq_true, decide_eq_true_eq] at hP
    obtain ⟨⟨⟨huse, hmh⟩, hcnt⟩, hall, hlen⟩ := hP
    have hmhne : e.monitoredHop ≠ "" := by simpa using hmh
    have hd_le := filter_down_le (endpoints.filter (fun x => x.isp == isp)) e.monitoredHop
    unfold sharedHopCount at hcnt
    refine ⟨e.monitoredHop, hmhne, by omega, hlen, ?_⟩
    intro x hx
    have := List.all_eq_true.mp hall x hx
    simpa using this
  · rintro ⟨hop, hne, hdisj, hlen, hall⟩
    have hget : ∃ e ∈ endpoints.filter (fun x => x.isp == isp),
        (e.useHop && e.monitoredHop == hop) = true := by
      rcases hdisj with h2 | h1
      · have hpos : 0 < ((endpoints.filter (fun e => e.isp == isp)).filter
            (fun x => x.useHop && x.monitoredHop == hop)).length := by omega
        obtain ⟨x, hx⟩ := List.exists_mem_of_length_pos hpos
        obtain ⟨hx1, hx2⟩ := List.mem_filter.mp hx
        exact ⟨x, hx1, hx2⟩
      · have hpos : 0 < ((endpoints.filter (fun e => e.isp == isp)).filter
            (fun x => x.status == "down" && x.useHop && x.monitoredHop == hop)).length := by
          omega
        obtain ⟨x, hx⟩ := List.exists_mem_of_length_pos hpos
        obtain ⟨hx1, hx2⟩ := List.mem_filter.mp hx
        simp only [Bool.and_eq_true] at hx2
        exact ⟨x, hx1, by simp [hx2.1.2, hx2.2]⟩
    obtain ⟨e, he, hP⟩ := hget
    simp only [Bool.and_eq_true, beq_iff_eq] at hP
    obtain ⟨huse, hmh⟩ := hP
    refine ⟨e, he, ?_⟩
    have hd_le := filter_down_le (endpoints.filter (fun x => x.isp == isp)) hop
    simp only [Bool.and_eq_true, decide_eq_true_eq]
    rw [hmh]
    refine ⟨⟨⟨huse, by simpa using hne⟩, ?_⟩, ?_, hlen⟩
    · unfold sharedHopCount
      omega
    · rw [List.all_eq_true]
      intro x hx
      have := hall x hx
      simpa using this

/-- C2 (witness): the amended hop rule applied to the concrete population in
which a single down endpoint of ISP "X" shares hop 198.51.100.1 with a down
endpoint of ISP "Y" — "X" is flagged although only one of its endpoints
monitors the hop. -/
theorem analyze_hopRule_amendedC2_witness :
    IsISPOutage (analyzeISPOutages (Except.ok hopSharedEndpoints)) "X" = true := by
  have h := analyze_hopRule_amendedC2 hopSharedEndpoints "X" (by decide) (by decide)
  rw [h]
  refine ⟨"198.51.100.1", by decide, ?_, by decide, by decide⟩
  right
  decide

/-- C2 (counterexample): in that same population, "X"'s down-fraction (1/3)
does not exceed the threshold and "X" is flagged by the code, yet no monitored
hop is shared by at least 2 endpoints of "X" — the claim's sharing condition
(and its "in particular" clause) is false of the code, because a down
hop-monitoring endpoint is tallied twice. -/
theorem analyze_hopRule_claimC2_cex :
    downFractionExceeded (hopSharedEndpoints.filter (fun e => e.isp == "X")) = false
      ∧ 2 ≤ (hopSharedEndpoints.filter (fun e => e.isp == "X")).length
      ∧ IsISPOutage (analyzeISPOutages (Except.ok hopSharedEndpoints)) "X" = true
      ∧ hopRuleClaimC2 hopSharedEndpoints
          (hopSharedEndpoints.filter (fun e => e.isp == "X")) = false := by
  exact ⟨by decide, by decide, by decide, by decide⟩

theorem lookup_cons (a : String) (b : CacheEntry) (l : List (String × CacheEntry)) (k : String) :
    ((a, b) :: l).lookup k = if k = a then some b else l.lookup k := by
  by_cases h : k = a
  · subst h; simp [List.lookup]
  · have hb : (k == a) = false := by simp [h]
    simp [List.lookup, hb, h]

theorem lookup_eq_none_keys (m : List (String × CacheEntry)) (k : String) :
    m.lookup k = none ↔ ∀ p ∈ m, p.1 ≠ k := by
  induction m with
  | nil => simp
  | cons p t ih =>
    obtain ⟨a, b⟩ := p
    rw [lookup_cons]
    by_cases h : k = a
    · subst h; simp
    · simp only [h, if_false, ih]
      constructor
      · intro hall
        intro q hq
        rcases List.mem_cons.mp hq with rfl | hq
        · exact fun hh => h hh.symm
        · exact hall q hq
      · intro hall q hq
        exact hall q (List.mem_cons_of_mem _ hq)

theorem lookup_append (l l' : List (String × CacheEntry)) (k : String) :
    (l ++ l').lookup k
      = (match l.lookup k with | some v => some v | none => l'.lookup k) := by
  induction l with
  | nil => simp
  | cons p t ih =>
    obtain ⟨a, b⟩ := p
    rw [List.cons_append, lookup_cons, lookup_cons]
    by_cases h : k = a
    · simp [h]
    · simp only [h, if_false]
      exact ih

theorem mapErase_lookup (m : List (String × CacheEntry)) (k k' : String) :
    (mapErase m k).lookup k' = if k' = k then none else m.lookup k' := by
  induction m with
  | nil => simp [mapErase]
  | cons p t ih =>
    obtain ⟨a, b⟩ := p
    unfold mapErase at ih ⊢
    rw [List.filter_cons]
    by_cases ha : a = k
    · have hb : ((a, b).1 != k) = false := by simp [ha]
      rw [hb]
      simp only [Bool.false_eq_true, if_false]
      rw [ih, lookup_cons]
      by_cases hk : k' = k
      · simp [hk]
      · have hk2 : k' ≠ a := fun hh => hk (ha ▸ hh)
        simp [hk, hk2]
    · have hb : ((a, b).1 != k) = true := by simp [ha]
      rw [hb]
      simp only [if_true]
      rw [lookup_cons, lookup_cons]
      by_cases hk : k' = a
      · subst hk
        have : ¬ (k' = k) := fun hh => ha (hh ▸ rfl)
        simp [this]
      · simp only [hk, if_false]
        exact ih

theorem mapInsert_lookup (m : List (String × CacheEntry)) (k : String) (v : CacheEntry)
    (k' : String) :
    (mapInsert m k v).lookup k' = if k' = k then some v else m.lookup k' := by
  unfold mapInsert
  rw [lookup_append, mapErase_lookup]
  by_cases h : k' = k
  · simp [h, lookup_cons]
  · simp only [h, if_false]
    cases m.lookup k' with
    | none => simp [lookup_cons, h]
    | some w => rfl

theorem mapErase_sublist (m : List (String × CacheEntry)) (k : String) :
    (mapErase m k).Sublist m :=
  List.filter_sublist m

theorem mapErase_length_le (m : List (String × CacheEntry)) (k : String) :
    (mapErase m k).length ≤ m.length :=
  List.length_filter_le _ m

theorem mapErase_of_lookup_none (m : List (String × CacheEntry)) (k : String)
    (h : m.lookup k = none) : mapErase m k = m := by
  have hall := (lookup_eq_none_keys m k).mp h
  unfold mapErase
  apply List.filter_eq_self.mpr
  intro p hp
  simpa using hall p hp

theorem mapErase_length_of_mem (m : List (String × CacheEntry)) (k : String)
    (hnd : (m.map Prod.fst).Nodup) (h : (m.lookup k).isSome) :
    (mapErase m k).length + 1 = m.length := by
  induction m with
  | nil => simp [List.lookup] at h
  | cons p t ih =>
    obtain ⟨a, b⟩ := p
    simp only [List.map_cons, List.nodup_cons] at hnd
    rw [lookup_cons] at h
    unfold mapErase at ih ⊢
    rw [List.filter_cons]
    by_cases hk : k = a
    · subst hk
      have hb : ((k, b).1 != k) = false := by simp
      rw [hb]
      simp only [Bool.false_eq_true, if_false, List.length_cons]
      have ht : t.filter (fun p => p.1 != k) = t := by
        apply List.filter_eq_self.mpr
        intro q hq
        have : q.1 ≠ k := by
          intro hh
          exact hnd.1 (hh ▸ List.mem_map_of_mem Prod.fst hq)
        simpa using this
      rw [ht]
    · have hb : ((a, b).1 != k) = true := by
        have : a ≠ k := fun hh => hk hh.symm
        simpa using this
      rw [hb]
      simp only [if_true, List.length_cons]
      have hh : (t.lookup k).isSome := by
        simp only [hk, if_false] at h
        exact h
      rw [← ih hnd.2 hh]

theorem evictLoop_length (maxSize : Nat) (hmax : 1 ≤ maxSize) :
    ∀ (order : List String) (cache : List (String × CacheEntry)),
      (∀ p ∈ cache, p.1 ∈ order) →
      (evictLoop maxSize cache order).1.length < maxSize := by
  intro order
  induction order with
  | nil =>
    intro cache hsub
    have hc : cache = [] := by
      cases cache with
      | nil => rfl
      | cons p t => exact absurd (hsub p (by simp)) (by simp)
    subst hc
    simpa [evictLoop] using hmax
  | cons o rest ih =>
    intro cache hsub
    unfold evictLoop
    by_cases hge : maxSize ≤ cache.length
    · simp only [hge, if_true]
      apply ih (mapErase cache o)
      intro p hp
      have hpm : p ∈ cache := (List.mem_filter.mp hp).1
      have hne : p.1 ≠ o := by
        have := (List.mem_filter.mp hp).2
        simpa using this
      rcases List.mem_cons.mp (hsub p hpm) with h | h
      · exact absurd h hne
      · exact h
    · simp only [hge, if_false]
      omega

theorem evictLoop_subset (maxSize : Nat) :
    ∀ (order : List String) (cache : List (String × CacheEntry)),
      (∀ p ∈ cache, p.1 ∈ order) →
      ∀ p ∈ (evictLoop maxSize cache order).1, p.1 ∈ (evictLoop maxSize cache order).2 := by
  intro order
  induction order with
  | nil =>
    intro cache hsub p hp
    simp only [evictLoop] at hp
    exact absurd (hsub p hp) (by simp)
  | cons o rest ih =>
    intro cache hsub
    unfold evictLoop
    by_cases hge : maxSize ≤ cache.length
    · simp only [hge, if_true]
      apply ih (mapErase cache o)
      intro p hp
      have hpm : p ∈ cache := (List.mem_filter.mp hp).1
      have hne : p.1 ≠ o := by
        have := (List.mem_filter.mp hp).2
        simpa using this
      rcases List.mem_cons.mp (hsub p hpm) with h | h
      · exact absurd h hne
      · exact h
    · simp only [hge, if_false]
      exact hsub

theorem evictLoop_nodup (maxSize : Nat) :
    ∀ (order : List String) (cache : List (String × CacheEntry)),
      (cache.map Prod.fst).Nodup →
      ((evictLoop maxSize cache order).1.map Prod.fst).Nodup := by
  intro order
  induction order with
  | nil => intro cache hnd; simpa [evictLoop] using hnd
  | cons o rest ih =>
    intro cache hnd
    unfold evictLoop
    by_cases hge : maxSize ≤ cache.length
    · simp only [hge, if_true]
      apply ih
      exact ((mapErase_sublist cache o).map Prod.fst).nodup hnd
    · simp only [hge, if_false]
      exact hnd

theorem evictLoop_at_capacity (maxSize : Nat) (hmax : 1 ≤ maxSize) :
    ∀ (order : List String) (cache : List (String × CacheEntry)),
      (cache.map Prod.fst).Nodup → (∀ p ∈ cache, p.1 ∈ order) →
      cache.length = maxSize →
      ∃ k0, order.find? (fun k => (cache.lookup k).isSome) = some k0
        ∧ (evictLoop maxSize cache order).1 = mapErase cache k0 := by
  intro order
  induction order with
  | nil =>
    intro cache _ hsub hlen
    exfalso
    cases cache with
    | nil => simp at hlen; omega
    | cons p t => exact absurd (hsub p (by simp)) (by simp)
  | cons o rest ih =>
    intro cache hnd hsub hlen
    have hge : maxSize ≤ cache.length := by omega
    by_cases ho : (cache.lookup o).isSome
    · refine ⟨o, ?_, ?_⟩
      · rw [List.find?_cons_of_pos]
        simpa using ho
      · unfold evictLoop
        simp only [hge, if_true]
        have hshort : (mapErase cache o).length + 1 = cache.length :=
          mapErase_length_of_mem cache o hnd ho
        cases rest with
        | nil => simp [evictLoop]
        | cons r rs =>
          unfold evictLoop
          have : ¬ (maxSize ≤ (mapErase cache o).length) := by omega
          simp [this]
    · have hoeq : cache.lookup o = none := by
        cases hl : cache.lookup o with
        | none => rfl
        | some v => rw [hl] at ho; simp at ho
      have herase : mapErase cache o = cache := mapErase_of_lookup_none cache o hoeq
      have hsub' : ∀ p ∈ cache, p.1 ∈ rest := by
        intro p hp
        have hne : p.1 ≠ o := by
          intro hh
          rw [← hh] at hoeq
          have := (lookup_eq_none_keys cache p.1).mp hoeq p hp
          exact this rfl
        rcases List.mem_cons.mp (hsub p hp) with h | h
        · exact absurd h hne
        · exact h
      obtain ⟨k0, hfind, heq⟩ := ih cache hnd hsub' hlen
      refine ⟨k0, ?_, ?_⟩
      · rw [List.find?_cons_of_neg]
        · exact hfind
        · simp [hoeq]
      · unfold evictLoop
        simp only [hge, if_true, herase]
        exact heq

theorem ClassifyISP_hit (c : Classifier) (txt : TXTOracle) (now : Nat) (ip : String)
    (e : CacheEntry) (hl : c.cache.lookup ip = some e) (hlt : now < e.expiresAt) :
    ClassifyISP c txt now ip = ⟨e.isp, none, c, []⟩ := by
  unfold ClassifyISP
  rw [hl]
  simp [hlt]

theorem ClassifyISP_miss (c : Classifier) (txt : TXTOracle) (now : Nat) (ip : String)
    (hmiss : cacheMissAt c now ip) :
    ClassifyISP c txt now ip = classifyMiss c txt now ip := by
  unfold ClassifyISP
  cases hl : c.cache.lookup ip with
  | none => rfl
  | some e =>
    have hle := hmiss e hl
    have hnl : ¬ (now < e.expiresAt) := by omega
    simp [hnl]

theorem classifyMiss_state (c : Classifier) (txt : TXTOracle) (now : Nat) (ip : String) :
    (classifyMiss c txt now ip).c = c
      ∨ ∃ name qs, classifyMiss c txt now ip = finishInsert c now ip name qs := by
  cases hla : LookupASN txt ip with
  | mk res qs =>
    cases res with
    | error e =>
      left
      simp [classifyMiss, hla]
    | ok pair =>
      obtain ⟨asn, cidr⟩ := pair
      by_cases hz : asn = 0
      · left
        simp [classifyMiss, hla, hz]
      · cases hcfg : c.asnConfig.lookup asn with
        | some cfg =>
          right
          exact ⟨cfg.display, qs, by simp [classifyMiss, hla, hz, hcfg]⟩
        | none =>
          cases hinfo : LookupASNInfo txt asn with
          | mk ires qs2 =>
            cases ires with
            | error e2 =>
              right
              exact ⟨"Unknown", qs ++ qs2, by simp [classifyMiss, hla, hz, hcfg, hinfo]⟩
            | ok p2 =>
              obtain ⟨name, org⟩ := p2
              by_cases horg : org = ""
              · right
                exact ⟨"Unknown", qs ++ qs2,
                  by simp [classifyMiss, hla, hz, hcfg, hinfo, horg]⟩
              · right
                exact ⟨cleanOrgName org, qs ++ qs2,
                  by simp [classifyMiss, hla, hz, hcfg, hinfo, horg]⟩

theorem finishInsert_WF (c : Classifier) (now : Nat) (ip name : String) (qs : List String)
    (hwf : CacheWF c) :
    CacheWF (finishInsert c now ip name qs).c
      ∧ (finishInsert c now ip name qs).c.maxCacheSize = c.maxCacheSize
      ∧ (finishInsert c now ip name qs).c.cache.length ≤ c.maxCacheSize := by
  obtain ⟨hnd, hsub, _hlen, hmax⟩ := hwf
  have hevlen := evictLoop_length c.maxCacheSize hmax c.cacheOrder c.cache hsub
  have hevsub := evictLoop_subset c.maxCacheSize c.cacheOrder c.cache hsub
  have hevnd := evictLoop_nodup c.maxCacheSize c.cacheOrder c.cache hnd
  unfold finishInsert
  refine ⟨⟨?_, ?_, ?_, hmax⟩, rfl, ?_⟩
  · -- keys of the inserted cache are nodup
    show (((mapErase (evictLoop c.maxCacheSize c.cache c.cacheOrder).1 ip
        ++ [(ip, (⟨name, false, now + c.cacheTTL⟩ : CacheEntry))]).map Prod.fst)).Nodup
    rw [List.map_append, List.nodup_append]
    refine ⟨((mapErase_sublist _ ip).map Prod.fst).nodup hevnd, by simp, ?_⟩
    intro a ha hb
    simp only [List.map_cons, List.map_nil, List.mem_singleton] at hb
    subst hb
    obtain ⟨p, hp, hpa⟩ := List.mem_map.mp ha
    have := (List.mem_filter.mp hp).2
    rw [hpa] at this
    simp at this
  · -- every key is in the new order slice
    intro p hp
    show p.1 ∈ (evictLoop c.maxCacheSize c.cache c.cacheOrder).2 ++ [ip]
    rcases List.mem_append.mp hp with h | h
    · have hpm : p ∈ (evictLoop c.maxCacheSize c.cache c.cacheOrder).1 :=
        (List.mem_filter.mp h).1
      exact List.mem_append_left _ (hevsub p hpm)
    · simp only [List.mem_singleton] at h
      subst h
      simp
  · -- the size bound
    show (mapErase (evictLoop c.maxCacheSize c.cache c.cacheOrder).1 ip
        ++ [(ip, (⟨name, false, now + c.cacheTTL⟩ : CacheEntry))]).length ≤ c.maxCacheSize
    rw [List.length_append]
    have := mapErase_length_le (evictLoop c.maxCacheSize c.cache c.cacheOrder).1 ip
    simp only [List.length_cons, List.length_nil]
    omega
  · show (mapErase (evictLoop c.maxCacheSize c.cache c.cacheOrder).1 ip
        ++ [(ip, (⟨name, false, now + c.cacheTTL⟩ : CacheEntry))]).length ≤ c.maxCacheSize
    rw [List.length_append]
    have := mapErase_length_le (evictLoop c.maxCacheSize c.cache c.cacheOrder).1 ip
    simp only [List.length_cons, List.length_nil]
    omega

theorem classifyISP_WF (c : Classifier) (txt : TXTOracle) (now : Nat) (ip : String)
    (hwf : CacheWF c) :
    CacheWF (ClassifyISP c txt now ip).c
      ∧ (ClassifyISP c txt now ip).c.maxCacheSize = c.maxCacheSize
      ∧ (ClassifyISP c txt now ip).c.cache.length ≤ c.maxCacheSize := by
  by_cases hhit : ∃ e, c.cache.lookup ip = some e ∧ now < e.expiresAt
  · obtain ⟨e, hl, hlt⟩ := hhit
    rw [ClassifyISP_hit c txt now ip e hl hlt]
    exact ⟨hwf, rfl, hwf.2.2.1⟩
  · have hmiss : cacheMissAt c now ip := by
      intro e hl
      by_contra hcon
      exact hhit ⟨e, hl, by omega⟩
    rw [ClassifyISP_miss c txt now ip hmiss]
    rcases classifyMiss_state c txt now ip with h | ⟨name, qs, h⟩
    · rw [h]
      exact ⟨hwf, rfl, hwf.2.2.1⟩
    · rw [h]
      exact finishInsert_WF c now ip name qs hwf

theorem reachable_inv (c : Classifier) (h : Reachable c) :
    CacheWF c ∧ c.maxCacheSize = 10000 := by
  induction h with
  | base cfg =>
    refine ⟨⟨by simp [NewClassifier], ?_, ?_, ?_⟩, rfl⟩
    · intro p hp
      simp [NewClassifier] at hp
    · simp [NewClassifier]
    · simp [NewClassifier]
  | step c txt now ip _ ih =>
    have h2 := classifyISP_WF c txt now ip ih.1
    exact ⟨h2.1, h2.2.1.trans ih.2⟩
  | clear c _ ih =>
    refine ⟨⟨by simp, ?_, ?_, ih.1.2.2.2⟩, ih.2⟩
    · intro p hp
      simp at hp
    · simp

theorem finishInsert_fifo (c : Classifier) (now : Nat) (ip name : String) (qs : List String)
    (hwf : CacheWF c) (hcap : c.cache.length = c.maxCacheSize) :
    ∃ k0, oldestLiveKey c = some k0
      ∧ ∀ k, (((finishInsert c now ip name qs).c.cache.lookup k).isSome
            ↔ (k = ip ∨ ((c.cache.lookup k).isSome ∧ k ≠ k0))) := by
  obtain ⟨hnd, hsub, _hlen, hmax⟩ := hwf
  obtain ⟨k0, hfind, heq⟩ :=
    evictLoop_at_capacity c.maxCacheSize hmax c.cacheOrder c.cache hnd hsub hcap
  refine ⟨k0, hfind, ?_⟩
  intro k
  show ((mapInsert (evictLoop c.maxCacheSize c.cache c.cacheOrder).1 ip
      (⟨name, false, now + c.cacheTTL⟩ : CacheEntry)).lookup k).isSome ↔ _
  rw [heq, mapInsert_lookup, mapErase_lookup]
  by_cases hk : k = ip
  · simp [hk]
  · simp only [hk, if_false, false_or]
    by_cases hk0 : k = k0
    · simp [hk0]
    · simp [hk0]

/-- C8: on a live (non-expired) cache hit, `ClassifyISP` returns the cached
ISP name immediately, issues no DNS query, and leaves the classifier state
untouched; consequently a second classification of the same address while the
entry cached by the first is still live issues no DNS queries of its own (the
only round of lookups is the first call's) and returns the same name. -/
theorem classifyISP_cacheHit_C8 :
    (∀ (c : Classifier) (txt : TXTOracle) (now : Nat) (ip : String) (e : CacheEntry),
        c.cache.lookup ip = some e → now < e.expiresAt →
        ClassifyISP c txt now ip = ⟨e.isp, none, c, []⟩)
    ∧ (∀ (c : Classifier) (txt : TXTOracle) (now now₂ : Nat) (ip : String) (e : CacheEntry),
        (ClassifyISP c txt now ip).c.cache.lookup ip = some e → now₂ < e.expiresAt →
        (ClassifyISP (ClassifyISP c txt now ip).c txt now₂ ip).queries = []
          ∧ (ClassifyISP (ClassifyISP c txt now ip).c txt now₂ ip).isp = e.isp
          ∧ (ClassifyISP (ClassifyISP c txt now ip).c txt now₂ ip).c
              = (ClassifyISP c txt now ip).c) := by
  refine ⟨fun c txt now ip e hl hlt => ClassifyISP_hit c txt now ip e hl hlt, ?_⟩
  intro c txt now now₂ ip e hl hlt
  rw [ClassifyISP_hit _ txt now₂ ip e hl hlt]
  exact ⟨rfl, rfl, rfl⟩

/-- C8 (witness): a concrete live hit returns the cached name with no queries
and no state change, and a second call within the TTL issues no queries. -/
theorem classifyISP_cacheHit_C8_witness :
    ClassifyISP classifierHit txtAcme 5 "198.51.100.7"
        = ⟨"Acme", none, classifierHit, []⟩
      ∧ (ClassifyISP (ClassifyISP classifierHit txtAcme 5 "198.51.100.7").c txtAcme 6
          "198.51.100.7").queries = [] := by
  constructor
  · exact classifyISP_cacheHit_C8.1 classifierHit txtAcme 5 "198.51.100.7"
      ⟨"Acme", false, 100⟩ rfl (by decide)
  · exact (classifyISP_cacheHit_C8.2 classifierHit txtAcme 5 6 "198.51.100.7"
      ⟨"Acme", false, 100⟩ rfl (by decide)).1

/-- C6 (amended): "Unknown" from a failed ASN lookup or from a zero ASN is
returned without touching the cache (so a later classification retries), but
"Unknown" produced by the unknown-ASN fallback — the ASN resolves, is not in
the rule table, and the ASN-info lookup fails — IS inserted into the cache
like any successful result. -/
theorem classify_unknown_caching_amendedC6 :
    (∀ (c : Classifier) (txt : TXTOracle) (now : Nat) (ip e : String) (qs : List String),
        cacheMissAt c now ip → LookupASN txt ip = (Except.error e, qs) →
        ClassifyISP c txt now ip = ⟨"Unknown", some e, c, qs⟩)
    ∧ (∀ (c : Classifier) (txt : TXTOracle) (now : Nat) (ip cidr : String) (qs : List String),
        cacheMissAt c now ip → LookupASN txt ip = (Except.ok (0, cidr), qs) →
        ClassifyISP c txt now ip = ⟨"Unknown", none, c, qs⟩)
    ∧ (∀ (c : Classifier) (txt : TXTOracle) (now : Nat) (ip : String) (asn : Int)
        (cidr : String) (qs : List String) (e2 : String) (qs2 : List String),
        cacheMissAt c now ip → LookupASN txt ip = (Except.ok (asn, cidr), qs) → asn ≠ 0 →
        c.asnConfig.lookup asn = none → LookupASNInfo txt asn = (Except.error e2, qs2) →
        (ClassifyISP c txt now ip).isp = "Unknown"
          ∧ (ClassifyISP c txt now ip).c.cache.lookup ip
              = some ⟨"Unknown", false, now + c.cacheTTL⟩) := by
  refine ⟨?_, ?_, ?_⟩
  · intro c txt now ip e qs hmiss hla
    rw [ClassifyISP_miss c txt now ip hmiss]
    simp [classifyMiss, hla]
  · intro c txt now ip cidr qs hmiss hla
    rw [ClassifyISP_miss c txt now ip hmiss]
    simp [classifyMiss, hla]
  · intro c txt now ip asn cidr qs e2 qs2 hmiss hla hz hcfg hinfo
    rw [ClassifyISP_miss c txt now ip hmiss]
    have hred : classifyMiss c txt now ip = finishInsert c now ip "Unknown" (qs ++ qs2) := by
      simp [classifyMiss, hla, hz, hcfg, hinfo]
    rw [hred]
    refine ⟨rfl, ?_⟩
    show (mapInsert (evictLoop c.maxCacheSize c.cache c.cacheOrder).1 ip
        (⟨"Unknown", false, now + c.cacheTTL⟩ : CacheEntry)).lookup ip = _
    rw [mapInsert_lookup]
    simp

/-- C6 (counterexample): classifying `9.9.9.9` when its ASN 64496 is not in
the rule table and the ASN-info lookup fails degrades to "Unknown" — and that
"Unknown" IS inserted into the classification cache, contradicting the claim
that a degraded result is never cached. -/
theorem classify_unknown_cached_cex :
    (ClassifyISP NewClassifier txtInfoFails 0 "9.9.9.9").isp = "Unknown"
      ∧ ((ClassifyISP NewClassifier txtInfoFails 0 "9.9.9.9").c.cache.lookup
          "9.9.9.9").isSome = true := by
  exact ⟨rfl, rfl⟩

/-- C6 (witness): the amended theorem's fallback clause applied to the
concrete `9.9.9.9` scenario, and its no-caching clause applied to an invalid
address (ASN lookup error). -/
theorem classify_unknown_caching_amendedC6_witness :
    ((ClassifyISP NewClassifier txtInfoFails 0 "9.9.9.9").isp = "Unknown"
        ∧ (ClassifyISP NewClassifier txtInfoFails 0 "9.9.9.9").c.cache.lookup "9.9.9.9"
            = some ⟨"Unknown", false, 0 + NewClassifier.cacheTTL⟩)
      ∧ ClassifyISP NewClassifier txtInfoFails 0 "not-an-ip"
          = ⟨"Unknown", some "invalid IP address", NewClassifier, []⟩ := by
  constructor
  · exact classify_unknown_caching_amendedC6.2.2 NewClassifier txtInfoFails 0 "9.9.9.9"
      64496 "9.9.9.0/24" ["9.9.9.9.origin.asn.cymru.com"]
      "ASN info lookup failed" ["AS64496.asn.cymru.com"]
      (fun e he => Option.noConfusion he) rfl (by decide) rfl rfl
  · exact classify_unknown_caching_amendedC6.1 NewClassifier txtInfoFails 0 "not-an-ip"
      "invalid IP address" [] (fun e he => Option.noConfusion he) rfl

/-- C7: the classification cache never exceeds the configured maximum — which
`NewClassifier` sets to 10000 — after any `ClassifyISP` operation from a
reachable state (and more generally the bound `maxCacheSize` holds from any
well-formed state); when an insertion happens while the cache is at capacity,
the evicted entry is exactly the oldest-by-insertion-order live key (the first
key of the insertion-order slice still present in the cache); and a cache hit
leaves the classifier — cache and insertion order — completely unchanged
(FIFO eviction, not LRU). -/
theorem classifier_cache_invariant_C7 :
    NewClassifier.maxCacheSize = 10000
    ∧ (∀ c, Reachable c → c.cache.length ≤ 10000)
    ∧ (∀ (c : Classifier) (txt : TXTOracle) (now : Nat) (ip : String), CacheWF c →
        (ClassifyISP c txt now ip).c.cache.length ≤ c.maxCacheSize)
    ∧ (∀ (c : Classifier) (txt : TXTOracle) (now : Nat) (ip : String) (e : CacheEntry),
        c.cache.lookup ip = some e → now < e.expiresAt →
        (ClassifyISP c txt now ip).c = c)
    ∧ (∀ (c : Classifier) (txt : TXTOracle) (now : Nat) (ip : String), CacheWF c →
        c.cache.length = c.maxCacheSize → cacheMissAt c now ip →
        ∀ (asn : Int) (cidr : String) (qs : List String),
          LookupASN txt ip = (Except.ok (asn, cidr), qs) → asn ≠ 0 →
          ∃ k0, oldestLiveKey c = some k0
            ∧ ∀ k, (((ClassifyISP c txt now ip).c.cache.lookup k).isSome
                  ↔ (k = ip ∨ ((c.cache.lookup k).isSome ∧ k ≠ k0)))) := by
  refine ⟨rfl, ?_, ?_, ?_, ?_⟩
  · intro c hr
    have hi := reachable_inv c hr
    have hb := hi.1.2.2.1
    rw [hi.2] at hb
    exact hb
  · intro c txt now ip hwf
    exact (classifyISP_WF c txt now ip hwf).2.2
  · intro c txt now ip e hl hlt
    rw [ClassifyISP_hit c txt now ip e hl hlt]
  · intro c txt now ip hwf hcap hmiss asn cidr qs hla hz
    rw [ClassifyISP_miss c txt now ip hmiss]
    have hins : ∃ name qs', classifyMiss c txt now ip = finishInsert c now ip name qs' := by
      cases hcfg : c.asnConfig.lookup asn with
      | some cfg =>
        exact ⟨cfg.display, qs, by simp [classifyMiss, hla, hz, hcfg]⟩
      | none =>
        cases hinfo : LookupASNInfo txt asn with
        | mk ires qs2 =>
          cases ires with
          | error e2 =>
            exact ⟨"Unknown", qs ++ qs2, by simp [classifyMiss, hla, hz, hcfg, hinfo]⟩
          | ok p2 =>
            obtain ⟨nm, org⟩ := p2
            by_cases horg : org = ""
            · exact ⟨"Unknown", qs ++ qs2,
                by simp [classifyMiss, hla, hz, hcfg, hinfo, horg]⟩
            · exact ⟨cleanOrgName org, qs ++ qs2,
                by simp [classifyMiss, hla, hz, hcfg, hinfo, horg]⟩
    obtain ⟨name, qs', hins⟩ := hins
    rw [hins]
    exact finishInsert_fifo c now ip name qs' hwf hcap

/-- C7 (witness): the bound at a freshly configured classifier; the size bound
and FIFO eviction at a concrete two-entry cache at capacity (the oldest live
key "a" is evicted, the new address is present); and a concrete hit leaving
the state unchanged. -/
theorem classifier_cache_invariant_C7_witness :
    NewClassifier.cache.length ≤ 10000
      ∧ (ClassifyISP classifierAtCap txtAcme 0 "198.51.100.7").c.cache.length
          ≤ classifierAtCap.maxCacheSize
      ∧ (ClassifyISP classifierHit txtAcme 5 "198.51.100.7").c = classifierHit
      ∧ ((ClassifyISP classifierAtCap txtAcme 0 "198.51.100.7").c.cache.lookup "a").isSome
          = false
      ∧ ((ClassifyISP classifierAtCap txtAcme 0
          "198.51.100.7").c.cache.lookup "198.51.100.7").isSome = true := by
  have hthm := classifier_cache_invariant_C7
  have hfifo := hthm.2.2.2.2 classifierAtCap txtAcme 0 "198.51.100.7"
    (by refine ⟨by decide, ?_, by decide, by decide⟩; decide)
    (by decide) (fun e he => Option.noConfusion he)
    64500 "198.51.100.0/24" ["7.100.51.198.origin.asn.cymru.com"] rfl (by decide)
  obtain ⟨k0, hk0, hiff⟩ := hfifo
  have hk0a : k0 = "a" := by
    have hfind : oldestLiveKey classifierAtCap = some "a" := rfl
    exact Option.some.inj (hk0.symm.trans hfind)
  refine ⟨hthm.2.1 _ (Reachable.base []),
    hthm.2.2.1 classifierAtCap txtAcme 0 "198.51.100.7"
      (by refine ⟨by decide, ?_, by decide, by decide⟩; decide),
    hthm.2.2.2.1 classifierHit txtAcme 5 "198.51.100.7" ⟨"Acme", false, 100⟩ rfl (by decide),
    ?_, ?_⟩
  · have hnot : ¬ ("a" = "198.51.100.7"
        ∨ ((classifierAtCap.cache.lookup "a").isSome ∧ "a" ≠ k0)) := by
      rw [hk0a]
      decide
    have hne : ¬ (((ClassifyISP classifierAtCap txtAcme 0
        "198.51.100.7").c.cache.lookup "a").isSome = true) :=
      fun h => hnot ((hiff "a").mp h)
    exact Bool.eq_false_iff.mpr hne
  · exact (hiff "198.51.100.7").mpr (Or.inl rfl)

end CCC
